import Mathlib

/-!
Shallow embedding of the channel rate-limit accounting engine in
`service/channel_rate_limit.go` (the primary implementation, before the
appended related document): the three public operations `Check`, `Record`,
`GetUsage` in both the Redis-backed and the in-process (memory) backends.

Modelling conventions:
- Go `int`/`int64` become `Int` (no claim here depends on 64-bit overflow).
- Wall-clock time (`time.Now().Unix()`) is passed explicitly as an `Int`
  parameter `now`.
- The Go code builds map keys with `fmt.Sprintf("%d:%s", channelId, modelName)`
  (memory) and `fmt.Sprintf("channel:rpm:%d:%s", ...)` etc (Redis).  Both are
  injective in the pair `(channelId, modelName)`, and the three Redis key
  namespaces are disjoint, so stores are modelled as maps from the pair
  `Key = Int × String` with one map per dimension.
- A Redis key with a TTL is readable strictly before its absolute expiry time
  and gone from time `expireAt` on (second granularity), matching the memory
  backend's `now >= item.Expiration` staleness test.
- Saturation failures are tagged with the dimension whose early-return fired
  (`Dim`); the Go code returns an error from exactly one of those sites.
- Redis reads that can fail (`LIndex` on an empty list, `Get` on an absent
  key, or any transient store error) are modelled as `Except Unit Int`; the
  check path of the Redis backend is written against a `RedisCheckView` of
  read results so that arbitrary read failures can be expressed.
-/

namespace ChannelRateLimit

/-- Key of all three per-dimension stores: `(channelId, modelName)`. -/
abbrev Key := Int × String

/-- Which dimension's saturation early-return fired inside a `Check`. -/
inductive Dim where
  | rpm
  | tpm
  | rpd
deriving DecidableEq, Repr

/-- MemoryCountItem from the source: a count with an absolute expiration
(Unix timestamp). -/
structure MemoryCountItem where
  count : Int
  expiration : Int
deriving DecidableEq, Repr

/-- The three process-local maps of the memory backend
(`memoryRPMStore`, `memoryTPMStore`, `memoryRPDStore`). -/
structure MemoryState where
  rpmStore : Key → Option (List Int)
  tpmStore : Key → Option MemoryCountItem
  rpdStore : Key → Option MemoryCountItem

/-- Point update of a store map. -/
def setStore {α : Type} (f : Key → Option α) (k : Key) (v : α) : Key → Option α :=
  fun k2 => if k2 = k then some v else f k2

/-- Initial (empty) memory backend state. -/
def emptyMemoryState : MemoryState :=
  ⟨fun _ => none, fun _ => none, fun _ => none⟩

/-- RPM Check block of checkChannelRateLimitMemory: count the stored
timestamps inside the trailing 60s window against the limit. -/
def memRPMBlock (st : MemoryState) (now : Int) (key : Key) (rpm : Int) : Option Dim :=
  if rpm > 0 then
    match st.rpmStore key with
    | some timestamps =>
        let count := timestamps.countP (fun ts => decide (now - ts < 60))
        if (count : Int) ≥ rpm then some Dim.rpm else none
    | none => none
  else none

/-- TPM Check block of checkChannelRateLimitMemory. -/
def memTPMBlock (st : MemoryState) (now : Int) (key : Key) (tpm : Int) : Option Dim :=
  if tpm > 0 then
    match st.tpmStore key with
    | some item =>
        if now < item.expiration ∧ item.count ≥ tpm then some Dim.tpm else none
    | none => none
  else none

/-- RPD Check block of checkChannelRateLimitMemory. -/
def memRPDBlock (st : MemoryState) (now : Int) (key : Key) (rpd : Int) : Option Dim :=
  if rpd > 0 then
    match st.rpdStore key with
    | some item =>
        if now < item.expiration ∧ item.count ≥ rpd then some Dim.rpd else none
    | none => none
  else none

/-- checkChannelRateLimitMemory: RPM block, then TPM block, then RPD block,
each returning on the first saturation found. -/
def checkChannelRateLimitMemory (st : MemoryState) (now : Int)
    (channelId : Int) (modelName : String) (rpm tpm rpd : Int) : Option Dim :=
  let key : Key := (channelId, modelName)
  memRPMBlock st now key rpm <|> memTPMBlock st now key tpm <|> memRPDBlock st now key rpd

/-- recordChannelRateLimitMemory: filter the RPM history to the last 60s,
append `now`, trim to the cap (`rpm`, or 1000 when `rpm ≤ 0`); replace or
increment the TPM item when `tokens > 0`; replace or increment the RPD item. -/
def recordChannelRateLimitMemory (st : MemoryState) (now : Int)
    (channelId : Int) (modelName : String) (rpm tpm rpd tokens : Int) : MemoryState :=
  let key : Key := (channelId, modelName)
  -- RPM Record
  let timestamps := (st.rpmStore key).getD []
  let newTimestamps := timestamps.filter (fun ts => decide (now - ts < 60)) ++ [now]
  let limitRPM : Int := if rpm ≤ 0 then 1000 else rpm
  let newTimestamps :=
    if (newTimestamps.length : Int) > limitRPM then
      newTimestamps.drop (newTimestamps.length - limitRPM.toNat)
    else newTimestamps
  let rpmStore2 := setStore st.rpmStore key newTimestamps
  -- TPM Record
  let tpmStore2 :=
    if tokens > 0 then
      match st.tpmStore key with
      | some item =>
          if now ≥ item.expiration then
            setStore st.tpmStore key ⟨tokens, now + 60⟩
          else
            setStore st.tpmStore key ⟨item.count + tokens, item.expiration⟩
      | none => setStore st.tpmStore key ⟨tokens, now + 60⟩
    else st.tpmStore
  -- RPD Record
  let rpdStore2 :=
    match st.rpdStore key with
    | some item =>
        if now ≥ item.expiration then
          setStore st.rpdStore key ⟨1, now + 24 * 3600⟩
        else
          setStore st.rpdStore key ⟨item.count + 1, item.expiration⟩
    | none => setStore st.rpdStore key ⟨1, now + 24 * 3600⟩
  ⟨rpmStore2, tpmStore2, rpdStore2⟩

/-- getChannelRateLimitUsageMemory: count of RPM timestamps inside the
trailing 60s window, and the TPM/RPD counts when still unexpired. -/
def getChannelRateLimitUsageMemory (st : MemoryState) (now : Int)
    (channelId : Int) (modelName : String) : Int × Int × Int :=
  let key : Key := (channelId, modelName)
  let rpm : Int :=
    match st.rpmStore key with
    | some timestamps => (timestamps.countP (fun ts => decide (now - ts < 60)) : Int)
    | none => 0
  let tpm : Int :=
    match st.tpmStore key with
    | some item => if now < item.expiration then item.count else 0
    | none => 0
  let rpd : Int :=
    match st.rpdStore key with
    | some item => if now < item.expiration then item.count else 0
    | none => 0
  (rpm, tpm, rpd)

/-- A Redis list value: items (head = most recently pushed) plus the absolute
expiry set by `Expire` (re-set to `now + 60` on every record). -/
structure RedisList where
  items : List Int
  expireAt : Int
deriving DecidableEq, Repr

/-- A Redis integer counter with its optional TTL (INCR creates a key without
a TTL; the record path then sets one on the first write of a window). -/
structure RedisCounter where
  count : Int
  expireAt : Option Int
deriving DecidableEq, Repr

/-- The Redis keyspace relevant to this module, split by the three key
namespaces `channel:rpm:`, `channel:tpm:`, `channel:rpd:`. -/
structure RedisState where
  rpmKeys : Key → Option RedisList
  tpmKeys : Key → Option RedisCounter
  rpdKeys : Key → Option RedisCounter

/-- Initial (empty) Redis keyspace. -/
def emptyRedisState : RedisState :=
  ⟨fun _ => none, fun _ => none, fun _ => none⟩

/-- A stored Redis list value as visible at time `now`: absent once its TTL
has elapsed. -/
def liveListValue (o : Option RedisList) (now : Int) : Option RedisList :=
  match o with
  | some l => if now ≥ l.expireAt then none else some l
  | none => none

/-- A stored Redis counter value as visible at time `now`: absent once its
TTL has elapsed. -/
def liveCounterValue (o : Option RedisCounter) (now : Int) : Option RedisCounter :=
  match o with
  | some c =>
      match c.expireAt with
      | some e => if now ≥ e then none else some c
      | none => some c
  | none => none

/-- A Redis list as visible at time `now`: absent once its TTL has elapsed. -/
def liveRedisList (st : RedisState) (now : Int) (k : Key) : Option RedisList :=
  liveListValue (st.rpmKeys k) now

/-- A Redis counter as visible at time `now`: absent once its TTL has elapsed. -/
def liveRedisCounter (store : Key → Option RedisCounter) (now : Int) (k : Key) :
    Option RedisCounter :=
  liveCounterValue (store k) now

/-- LLen on the RPM key (0 for an absent or expired key). -/
def redisLLen (st : RedisState) (now : Int) (k : Key) : Int :=
  match liveRedisList st now k with
  | some l => (l.items.length : Int)
  | none => 0

/-- LIndex key -1 (the oldest pushed timestamp); errors on an absent or
empty list, as the Go `.Int64()` call does. -/
def redisLIndexLast (st : RedisState) (now : Int) (k : Key) : Except Unit Int :=
  match liveRedisList st now k with
  | some l =>
      match l.items.getLast? with
      | some v => Except.ok v
      | none => Except.error ()
  | none => Except.error ()

/-- GET on a counter key; errors (redis.Nil) on an absent or expired key. -/
def redisGetCounter (store : Key → Option RedisCounter) (now : Int) (k : Key) :
    Except Unit Int :=
  match liveRedisCounter store now k with
  | some c => Except.ok c.count
  | none => Except.error ()

/-- The four store reads a Redis-backend `Check` performs, each of which may
fail (transient store error or absent data). -/
structure RedisCheckView where
  llenResult : Except Unit Int
  lindexLastResult : Except Unit Int
  rpdGetResult : Except Unit Int
  tpmGetResult : Except Unit Int
deriving Repr

/-- RPM Check block of checkChannelRateLimitRedis (Sliding Window using
List): list length, then oldest timestamp; a failed read falls through. -/
def redisRPMBlock (v : RedisCheckView) (now rpm : Int) : Option Dim :=
  if rpm > 0 then
    match v.llenResult with
    | Except.ok lenVal =>
        if lenVal ≥ rpm then
          match v.lindexLastResult with
          | Except.ok oldTimeVal =>
              if now - oldTimeVal < 60 then some Dim.rpm else none
          | Except.error _ => none
        else none
    | Except.error _ => none
  else none

/-- RPD Check block of checkChannelRateLimitRedis (Fixed Window 24h). -/
def redisRPDBlock (v : RedisCheckView) (rpd : Int) : Option Dim :=
  if rpd > 0 then
    match v.rpdGetResult with
    | Except.ok val => if val ≥ rpd then some Dim.rpd else none
    | Except.error _ => none
  else none

/-- TPM Check block of checkChannelRateLimitRedis (Fixed Window 1m). -/
def redisTPMBlock (v : RedisCheckView) (tpm : Int) : Option Dim :=
  if tpm > 0 then
    match v.tpmGetResult with
    | Except.ok val => if val ≥ tpm then some Dim.tpm else none
    | Except.error _ => none
  else none

/-- checkChannelRateLimitRedis against a view of its reads: RPM block, then
RPD block, then TPM block; every failed read is treated as no data (fail
open). -/
def checkRedisWithView (v : RedisCheckView) (now rpm tpm rpd : Int) : Option Dim :=
  redisRPMBlock v now rpm <|> redisRPDBlock v rpd <|> redisTPMBlock v tpm

/-- The reads of a healthy store (only absent data produces errors). -/
def redisCheckView (st : RedisState) (now : Int) (k : Key) : RedisCheckView :=
  { llenResult := Except.ok (redisLLen st now k)
    lindexLastResult := redisLIndexLast st now k
    rpdGetResult := redisGetCounter st.rpdKeys now k
    tpmGetResult := redisGetCounter st.tpmKeys now k }

/-- checkChannelRateLimitRedis over the modelled keyspace. -/
def checkChannelRateLimitRedis (st : RedisState) (now : Int)
    (channelId : Int) (modelName : String) (rpm tpm rpd : Int) : Option Dim :=
  checkRedisWithView (redisCheckView st now (channelId, modelName)) now rpm tpm rpd

/-- recordChannelRateLimitRedis: LPush `now` and LTrim the RPM list to the
cap (`rpm`, or the 1000 monitoring default when `rpm ≤ 0`) with a fresh 60s
TTL; INCR the RPD counter (24h TTL on the first write of a window); IncrBy
the TPM counter when `tokens > 0` (60s TTL on the first write of a window). -/
def recordChannelRateLimitRedis (st : RedisState) (now : Int)
    (channelId : Int) (modelName : String) (rpm tpm rpd tokens : Int) : RedisState :=
  let key : Key := (channelId, modelName)
  -- RPM Record
  let limitRPM : Int := if rpm ≤ 0 then 1000 else rpm
  let prevItems :=
    match liveRedisList st now key with
    | some l => l.items
    | none => []
  let rpmKeys2 := setStore st.rpmKeys key ⟨(now :: prevItems).take limitRPM.toNat, now + 60⟩
  -- RPD Record
  let prevRPD := liveRedisCounter st.rpdKeys now key
  let rpdVal : Int := (match prevRPD with | some c => c.count | none => (0 : Int)) + 1
  let rpdExpire : Option Int :=
    if rpdVal = 1 then some (now + 24 * 3600)
    else match prevRPD with | some c => c.expireAt | none => none
  let rpdKeys2 := setStore st.rpdKeys key ⟨rpdVal, rpdExpire⟩
  -- TPM Record
  let tpmKeys2 :=
    if tokens > 0 then
      let prevTPM := liveRedisCounter st.tpmKeys now key
      let tpmVal : Int := (match prevTPM with | some c => c.count | none => (0 : Int)) + tokens
      let tpmExpire : Option Int :=
        if tpmVal = tokens then some (now + 60)
        else match prevTPM with | some c => c.expireAt | none => none
      setStore st.tpmKeys key ⟨tpmVal, tpmExpire⟩
    else st.tpmKeys
  ⟨rpmKeys2, tpmKeys2, rpdKeys2⟩

/-- getChannelRateLimitUsageRedis: raw list length for rpm, counter values
(0 when absent or expired) for tpm and rpd. -/
def getChannelRateLimitUsageRedis (st : RedisState) (now : Int)
    (channelId : Int) (modelName : String) : Int × Int × Int :=
  let key : Key := (channelId, modelName)
  let rpm := redisLLen st now key
  let tpm :=
    match redisGetCounter st.tpmKeys now key with
    | Except.ok v => v
    | Except.error _ => 0
  let rpd :=
    match redisGetCounter st.rpdKeys now key with
    | Except.ok v => v
    | Except.error _ => 0
  (rpm, tpm, rpd)

/-- One public operation, with its integer arguments. -/
inductive Call where
  | check (rpm tpm rpd : Int)
  | record (rpm tpm rpd tokens : Int)
  | getUsage
deriving DecidableEq, Repr

/-- One scripted call: a wall-clock time, a key, and the operation. -/
structure Step where
  time : Int
  channelId : Int
  modelName : String
  call : Call
deriving DecidableEq, Repr

/-- What one scripted call returns to the caller. -/
inductive StepResult where
  | ok
  | verdict (r : Option Dim)
  | usage (rpm tpm rpd : Int)
deriving DecidableEq, Repr

/-- Run one scripted call against the memory backend. -/
def memoryApply (st : MemoryState) (s : Step) : StepResult × MemoryState :=
  match s.call with
  | Call.check rpm tpm rpd =>
      (StepResult.verdict (checkChannelRateLimitMemory st s.time s.channelId s.modelName rpm tpm rpd), st)
  | Call.record rpm tpm rpd tokens =>
      (StepResult.ok, recordChannelRateLimitMemory st s.time s.channelId s.modelName rpm tpm rpd tokens)
  | Call.getUsage =>
      let u := getChannelRateLimitUsageMemory st s.time s.channelId s.modelName
      (StepResult.usage u.1 u.2.1 u.2.2, st)

/-- Run one scripted call against the Redis backend. -/
def redisApply (st : RedisState) (s : Step) : StepResult × RedisState :=
  match s.call with
  | Call.check rpm tpm rpd =>
      (StepResult.verdict (checkChannelRateLimitRedis st s.time s.channelId s.modelName rpm tpm rpd), st)
  | Call.record rpm tpm rpd tokens =>
      (StepResult.ok, recordChannelRateLimitRedis st s.time s.channelId s.modelName rpm tpm rpd tokens)
  | Call.getUsage =>
      let u := getChannelRateLimitUsageRedis st s.time s.channelId s.modelName
      (StepResult.usage u.1 u.2.1 u.2.2, st)

/-- Trace of a script against the memory backend, from a given state. -/
def runMemoryFrom (st : MemoryState) : List Step → List StepResult
  | [] => []
  | s :: rest =>
      let p := memoryApply st s
      p.1 :: runMemoryFrom p.2 rest

/-- Trace of a script against the Redis backend, from a given state. -/
def runRedisFrom (st : RedisState) : List Step → List StepResult
  | [] => []
  | s :: rest =>
      let p := redisApply st s
      p.1 :: runRedisFrom p.2 rest

/-- Trace of a script against the memory backend, from the empty state. -/
def runMemory (steps : List Step) : List StepResult :=
  runMemoryFrom emptyMemoryState steps

/-- Trace of a script against the Redis backend, from the empty state. -/
def runRedis (steps : List Step) : List StepResult :=
  runRedisFrom emptyRedisState steps

/-- The memory RPM dimension is saturated: a positive limit, and at least
that many stored timestamps inside the trailing 60s window. -/
def memRPMSaturated (st : MemoryState) (now : Int) (key : Key) (rpm : Int) : Prop :=
  0 < rpm ∧ ∃ timestamps, st.rpmStore key = some timestamps ∧
    rpm ≤ (timestamps.countP (fun ts => decide (now - ts < 60)) : Int)

/-- The memory TPM dimension is saturated: a positive limit and an unexpired
item whose count has reached it. -/
def memTPMSaturated (st : MemoryState) (now : Int) (key : Key) (tpm : Int) : Prop :=
  0 < tpm ∧ ∃ item, st.tpmStore key = some item ∧ now < item.expiration ∧ tpm ≤ item.count

/-- The memory RPD dimension is saturated: a positive limit and an unexpired
item whose count has reached it. -/
def memRPDSaturated (st : MemoryState) (now : Int) (key : Key) (rpd : Int) : Prop :=
  0 < rpd ∧ ∃ item, st.rpdStore key = some item ∧ now < item.expiration ∧ rpd ≤ item.count

/-- The Redis RPM dimension is saturated in a view of the check's reads:
a full list whose oldest timestamp is still inside the 60s window. -/
def redisRPMSaturated (v : RedisCheckView) (now rpm : Int) : Prop :=
  0 < rpm ∧ (∃ lenVal, v.llenResult = Except.ok lenVal ∧ rpm ≤ lenVal) ∧
    ∃ oldTimeVal, v.lindexLastResult = Except.ok oldTimeVal ∧ now - oldTimeVal < 60

/-- The Redis RPD dimension is saturated in a view of the check's reads. -/
def redisRPDSaturated (v : RedisCheckView) (rpd : Int) : Prop :=
  0 < rpd ∧ ∃ val, v.rpdGetResult = Except.ok val ∧ rpd ≤ val

/-- The Redis TPM dimension is saturated in a view of the check's reads. -/
def redisTPMSaturated (v : RedisCheckView) (tpm : Int) : Prop :=
  0 < tpm ∧ ∃ val, v.tpmGetResult = Except.ok val ∧ tpm ≤ val

/-- A memory state holding one stale TPM item and one stale RPD item at key
(1, "m"), both expired at time 50. -/
def staleItemState : MemoryState :=
  ⟨fun _ => none,
   fun k => if k = ((1 : Int), "m") then some ⟨7, 50⟩ else none,
   fun k => if k = ((1 : Int), "m") then some ⟨7, 50⟩ else none⟩

/-- A view of a Redis check whose four store reads all fail. -/
def allErrorsView : RedisCheckView :=
  ⟨Except.error (), Except.error (), Except.error (), Except.error ()⟩

/-- Apply a sequence of (time, tokens) Record calls at one key, oldest
first. -/
def recordSeqMemory (st : MemoryState) (channelId : Int) (modelName : String)
    (rpm tpm rpd : Int) : List (Int × Int) → MemoryState
  | [] => st
  | p :: rest =>
      recordSeqMemory (recordChannelRateLimitMemory st p.1 channelId modelName rpm tpm rpd p.2)
        channelId modelName rpm tpm rpd rest

/-- Number of stored timestamps inside the trailing 60s window. -/
def countLive (now : Int) (timestamps : List Int) : Nat :=
  timestamps.countP (fun ts => decide (now - ts < 60))

/-- The longest head segment of a descending push history in which no two
consecutive records are 60s or more apart: a Redis RPM list never contains
records from before a TTL gap, because the whole key expired in the gap. -/
def chain : List Int → List Int
  | [] => []
  | [t] => [t]
  | t :: t2 :: rest => if t - t2 < 60 then t :: chain (t2 :: rest) else [t]

/-- The value the memory backend stores for the RPM history of the recorded
key: filter to the window, append `now`, trim to the cap. -/
def trimmedRPM (ml : Option (List Int)) (now limitRPM : Int) : List Int :=
  let timestamps := ml.getD []
  let newTimestamps := timestamps.filter (fun ts => decide (now - ts < 60)) ++ [now]
  if (newTimestamps.length : Int) > limitRPM then
    newTimestamps.drop (newTimestamps.length - limitRPM.toNat)
  else newTimestamps

/-- The value the Redis backend stores for the RPM key of the recorded key:
LPush `now` onto the (possibly TTL-expired) list, LTrim to the cap, 60s TTL. -/
def pushedRPM (rl : Option RedisList) (now limitRPM : Int) : RedisList :=
  ⟨(now :: (match liveListValue rl now with | some l => l.items | none => [])).take
      limitRPM.toNat,
   now + 60⟩

/-- The rpm-limit argument a call carries, when it has one. -/
def callRPMArg : Call → Option Int
  | Call.check rpm _ _ => some rpm
  | Call.record rpm _ _ _ => some rpm
  | Call.getUsage => none

/-- Step results agree: identical for Record; the same saturated-or-not
verdict for Check; the same tpm and rpd for GetUsage (the reported rpm may
differ between the backends). -/
def resultAgree : StepResult → StepResult → Prop
  | StepResult.ok, StepResult.ok => True
  | StepResult.verdict a, StepResult.verdict b => a.isSome = b.isSome
  | StepResult.usage _ t1 d1, StepResult.usage _ t2 d2 => t1 = t2 ∧ d1 = d2
  | _, _ => False

/-- Coupling of a memory counter map with the matching Redis counter map:
the Redis key holds the same count with the same absolute expiry, and all
stored counts are at least 1. -/
def counterRel (mstore : Key → Option MemoryCountItem)
    (rstore : Key → Option RedisCounter) : Prop :=
  ∀ k, rstore k = (mstore k).map (fun it => ⟨it.count, some it.expiration⟩) ∧
    ∀ it, mstore k = some it → 1 ≤ it.count

/-- Coupling of one key's memory RPM history with its Redis RPM list, both
induced by the same descending push history `w :: rest` (`w` = last record
time) of records with the constant positive cap `r`, all at or before `t0`:
the Redis list is the first `r` entries of the history up to the first TTL
gap with expiry `w + 60`; the memory list is the reversed first `m` entries;
and every history entry inside the first `r` that the memory backend has
dropped was already 60s old at `t0`. -/
def rpmRel (r t0 : Int) (ml : Option (List Int)) (rl : Option RedisList) : Prop :=
  (ml = none ∧ rl = none) ∨
  ∃ w rest m,
    List.Sorted (· ≥ ·) (w :: rest) ∧ (∀ x ∈ w :: rest, x ≤ t0) ∧
    rl = some ⟨(chain (w :: rest)).take r.toNat, w + 60⟩ ∧
    m ≤ min r.toNat (w :: rest).length ∧
    ml = some ((w :: rest).take m).reverse ∧
    ∀ x ∈ ((w :: rest).take r.toNat).drop m, t0 - x ≥ 60

/-- The full coupling between the two backends, for scripts whose rpm limit
is the constant `r`, after wall-clock time `t0`. -/
def backendInv (r t0 : Int) (ms : MemoryState) (rs : RedisState) : Prop :=
  counterRel ms.tpmStore rs.tpmKeys ∧ counterRel ms.rpdStore rs.rpdKeys ∧
  ∀ k, rpmRel r t0 (ms.rpmStore k) (rs.rpmKeys k)

/-- A script on which the two backends report different rpm usage: two
Records inside one minute, then a GetUsage after the first has aged out of
the sliding window but the Redis key TTL (set by the second Record) has not
yet elapsed. -/
def divergingScript : List Step :=
  [⟨0, 1, "m", Call.record 2 0 0 0⟩,
   ⟨30, 1, "m", Call.record 2 0 0 0⟩,
   ⟨62, 1, "m", Call.getUsage⟩]

/-- A small script exercising all three operations with the constant rpm
limit 2. -/
def agreeingScript : List Step :=
  [⟨0, 1, "m", Call.record 2 1 1 1⟩,
   ⟨30, 1, "m", Call.check 2 1 1⟩,
   ⟨62, 1, "m", Call.getUsage⟩]



theorem setStore_self {α : Type} (f : Key → Option α) (k : Key) (v : α) :
    setStore f k v k = some v := by
  simp [setStore]

theorem setStore_other {α : Type} (f : Key → Option α) (k : Key) (v : α)
    (k2 : Key) (h : k2 ≠ k) : setStore f k v k2 = f k2 := by
  simp [setStore, h]

theorem memRPMBlock_eq_some_iff (st : MemoryState) (now : Int) (key : Key) (rpm : Int) (d : Dim) :
    memRPMBlock st now key rpm = some d ↔ d = Dim.rpm ∧ memRPMSaturated st now key rpm := by
  unfold memRPMBlock memRPMSaturated
  by_cases hr : rpm > 0
  · cases h : st.rpmStore key with
    | none => simp [hr, h]
    | some tss =>
      by_cases hc : ((tss.countP (fun ts => decide (now - ts < 60)) : Int)) ≥ rpm
      · simp [hr, h, hc, eq_comm]
      · simp [hr, h, hc]
  · simp [hr]

theorem memTPMBlock_eq_some_iff (st : MemoryState) (now : Int) (key : Key) (tpm : Int) (d : Dim) :
    memTPMBlock st now key tpm = some d ↔ d = Dim.tpm ∧ memTPMSaturated st now key tpm := by
  unfold memTPMBlock memTPMSaturated
  by_cases ht : tpm > 0
  · cases h : st.tpmStore key with
    | none => simp [ht, h]
    | some item =>
      by_cases hc : now < item.expiration ∧ item.count ≥ tpm
      · simp [ht, h, hc, eq_comm]
      · simp [ht, h, hc]
  · simp [ht]

theorem memRPDBlock_eq_some_iff (st : MemoryState) (now : Int) (key : Key) (rpd : Int) (d : Dim) :
    memRPDBlock st now key rpd = some d ↔ d = Dim.rpd ∧ memRPDSaturated st now key rpd := by
  unfold memRPDBlock memRPDSaturated
  by_cases ht : rpd > 0
  · cases h : st.rpdStore key with
    | none => simp [ht, h]
    | some item =>
      by_cases hc : now < item.expiration ∧ item.count ≥ rpd
      · simp [ht, h, hc, eq_comm]
      · simp [ht, h, hc]
  · simp [ht]

theorem redisRPMBlock_eq_some_iff (v : RedisCheckView) (now rpm : Int) (d : Dim) :
    redisRPMBlock v now rpm = some d ↔ d = Dim.rpm ∧ redisRPMSaturated v now rpm := by
  unfold redisRPMBlock redisRPMSaturated
  by_cases hr : rpm > 0
  · cases h : v.llenResult with
    | error e => simp [hr, h]
    | ok lenVal =>
      by_cases hl : lenVal ≥ rpm
      · cases h2 : v.lindexLastResult with
        | error e => simp [hr, h, hl, h2]
        | ok oldTimeVal =>
          by_cases ho : now - oldTimeVal < 60
          · simp [hr, h, hl, h2, ho, eq_comm]
          · simp [hr, h, hl, h2, ho]
      · simp [hr, h, hl]
  · simp [hr]

theorem redisRPDBlock_eq_some_iff (v : RedisCheckView) (rpd : Int) (d : Dim) :
    redisRPDBlock v rpd = some d ↔ d = Dim.rpd ∧ redisRPDSaturated v rpd := by
  unfold redisRPDBlock redisRPDSaturated
  by_cases hr : rpd > 0
  · cases h : v.rpdGetResult with
    | error e => simp [hr, h]
    | ok val =>
      by_cases hv : val ≥ rpd
      · simp [hr, h, hv, eq_comm]
      · simp [hr, h, hv]
  · simp [hr]

theorem redisTPMBlock_eq_some_iff (v : RedisCheckView) (tpm : Int) (d : Dim) :
    redisTPMBlock v tpm = some d ↔ d = Dim.tpm ∧ redisTPMSaturated v tpm := by
  unfold redisTPMBlock redisTPMSaturated
  by_cases hr : tpm > 0
  · cases h : v.tpmGetResult with
    | error e => simp [hr, h]
    | ok val =>
      by_cases hv : val ≥ tpm
      · simp [hr, h, hv, eq_comm]
      · simp [hr, h, hv]
  · simp [hr]



theorem memRPMBlock_eq_none_iff (st : MemoryState) (now : Int) (key : Key) (rpm : Int) :
    memRPMBlock st now key rpm = none ↔ ¬ memRPMSaturated st now key rpm := by
  cases h : memRPMBlock st now key rpm with
  | none =>
    simp only [true_iff]
    intro hs
    have h2 := (memRPMBlock_eq_some_iff st now key rpm Dim.rpm).mpr ⟨rfl, hs⟩
    rw [h] at h2
    cases h2
  | some d =>
    obtain ⟨hd, hs⟩ := (memRPMBlock_eq_some_iff st now key rpm d).mp h
    simp [hs]

theorem memTPMBlock_eq_none_iff (st : MemoryState) (now : Int) (key : Key) (tpm : Int) :
    memTPMBlock st now key tpm = none ↔ ¬ memTPMSaturated st now key tpm := by
  cases h : memTPMBlock st now key tpm with
  | none =>
    simp only [true_iff]
    intro hs
    have h2 := (memTPMBlock_eq_some_iff st now key tpm Dim.tpm).mpr ⟨rfl, hs⟩
    rw [h] at h2
    cases h2
  | some d =>
    obtain ⟨hd, hs⟩ := (memTPMBlock_eq_some_iff st now key tpm d).mp h
    simp [hs]

theorem memRPDBlock_eq_none_iff (st : MemoryState) (now : Int) (key : Key) (rpd : Int) :
    memRPDBlock st now key rpd = none ↔ ¬ memRPDSaturated st now key rpd := by
  cases h : memRPDBlock st now key rpd with
  | none =>
    simp only [true_iff]
    intro hs
    have h2 := (memRPDBlock_eq_some_iff st now key rpd Dim.rpd).mpr ⟨rfl, hs⟩
    rw [h] at h2
    cases h2
  | some d =>
    obtain ⟨hd, hs⟩ := (memRPDBlock_eq_some_iff st now key rpd d).mp h
    simp [hs]

theorem redisRPMBlock_eq_none_iff (v : RedisCheckView) (now rpm : Int) :
    redisRPMBlock v now rpm = none ↔ ¬ redisRPMSaturated v now rpm := by
  cases h : redisRPMBlock v now rpm with
  | none =>
    simp only [true_iff]
    intro hs
    have h2 := (redisRPMBlock_eq_some_iff v now rpm Dim.rpm).mpr ⟨rfl, hs⟩
    rw [h] at h2
    cases h2
  | some d =>
    obtain ⟨hd, hs⟩ := (redisRPMBlock_eq_some_iff v now rpm d).mp h
    simp [hs]

theorem redisRPDBlock_eq_none_iff (v : RedisCheckView) (rpd : Int) :
    redisRPDBlock v rpd = none ↔ ¬ redisRPDSaturated v rpd := by
  cases h : redisRPDBlock v rpd with
  | none =>
    simp only [true_iff]
    intro hs
    have h2 := (redisRPDBlock_eq_some_iff v rpd Dim.rpd).mpr ⟨rfl, hs⟩
    rw [h] at h2
    cases h2
  | some d =>
    obtain ⟨hd, hs⟩ := (redisRPDBlock_eq_some_iff v rpd d).mp h
    simp [hs]

theorem redisTPMBlock_eq_none_iff (v : RedisCheckView) (tpm : Int) :
    redisTPMBlock v tpm = none ↔ ¬ redisTPMSaturated v tpm := by
  cases h : redisTPMBlock v tpm with
  | none =>
    simp only [true_iff]
    intro hs
    have h2 := (redisTPMBlock_eq_some_iff v tpm Dim.tpm).mpr ⟨rfl, hs⟩
    rw [h] at h2
    cases h2
  | some d =>
    obtain ⟨hd, hs⟩ := (redisTPMBlock_eq_some_iff v tpm d).mp h
    simp [hs]

theorem checkMemory_cases (st : MemoryState) (now channelId : Int) (modelName : String)
    (rpm tpm rpd : Int) :
    (checkChannelRateLimitMemory st now channelId modelName rpm tpm rpd = some Dim.rpm ↔
       memRPMSaturated st now (channelId, modelName) rpm) ∧
    (checkChannelRateLimitMemory st now channelId modelName rpm tpm rpd = some Dim.tpm ↔
       ¬ memRPMSaturated st now (channelId, modelName) rpm ∧
       memTPMSaturated st now (channelId, modelName) tpm) ∧
    (checkChannelRateLimitMemory st now channelId modelName rpm tpm rpd = some Dim.rpd ↔
       ¬ memRPMSaturated st now (channelId, modelName) rpm ∧
       ¬ memTPMSaturated st now (channelId, modelName) tpm ∧
       memRPDSaturated st now (channelId, modelName) rpd) ∧
    (checkChannelRateLimitMemory st now channelId modelName rpm tpm rpd = none ↔
       ¬ memRPMSaturated st now (channelId, modelName) rpm ∧
       ¬ memTPMSaturated st now (channelId, modelName) tpm ∧
       ¬ memRPDSaturated st now (channelId, modelName) rpd) := by
  rcases h1 : memRPMBlock st now (channelId, modelName) rpm with _ | d1
  · have n1 := (memRPMBlock_eq_none_iff st now (channelId, modelName) rpm).mp h1
    rcases h2 : memTPMBlock st now (channelId, modelName) tpm with _ | d2
    · have n2 := (memTPMBlock_eq_none_iff st now (channelId, modelName) tpm).mp h2
      rcases h3 : memRPDBlock st now (channelId, modelName) rpd with _ | d3
      · have n3 := (memRPDBlock_eq_none_iff st now (channelId, modelName) rpd).mp h3
        simp [checkChannelRateLimitMemory, h1, h2, h3, n1, n2, n3]
      · obtain ⟨rfl, s3⟩ := (memRPDBlock_eq_some_iff st now (channelId, modelName) rpd d3).mp h3
        simp [checkChannelRateLimitMemory, h1, h2, h3, n1, n2, s3]
    · obtain ⟨rfl, s2⟩ := (memTPMBlock_eq_some_iff st now (channelId, modelName) tpm d2).mp h2
      simp [checkChannelRateLimitMemory, h1, h2, n1, s2]
  · obtain ⟨rfl, s1⟩ := (memRPMBlock_eq_some_iff st now (channelId, modelName) rpm d1).mp h1
    simp [checkChannelRateLimitMemory, h1, s1]

theorem checkRedisView_cases (v : RedisCheckView) (now rpm tpm rpd : Int) :
    (checkRedisWithView v now rpm tpm rpd = some Dim.rpm ↔ redisRPMSaturated v now rpm) ∧
    (checkRedisWithView v now rpm tpm rpd = some Dim.rpd ↔
       ¬ redisRPMSaturated v now rpm ∧ redisRPDSaturated v rpd) ∧
    (checkRedisWithView v now rpm tpm rpd = some Dim.tpm ↔
       ¬ redisRPMSaturated v now rpm ∧ ¬ redisRPDSaturated v rpd ∧ redisTPMSaturated v tpm) ∧
    (checkRedisWithView v now rpm tpm rpd = none ↔
       ¬ redisRPMSaturated v now rpm ∧ ¬ redisRPDSaturated v rpd ∧ ¬ redisTPMSaturated v tpm) := by
  rcases h1 : redisRPMBlock v now rpm with _ | d1
  · have n1 := (redisRPMBlock_eq_none_iff v now rpm).mp h1
    rcases h2 : redisRPDBlock v rpd with _ | d2
    · have n2 := (redisRPDBlock_eq_none_iff v rpd).mp h2
      rcases h3 : redisTPMBlock v tpm with _ | d3
      · have n3 := (redisTPMBlock_eq_none_iff v tpm).mp h3
        simp [checkRedisWithView, h1, h2, h3, n1, n2, n3]
      · obtain ⟨rfl, s3⟩ := (redisTPMBlock_eq_some_iff v tpm d3).mp h3
        simp [checkRedisWithView, h1, h2, h3, n1, n2, s3]
    · obtain ⟨rfl, s2⟩ := (redisRPDBlock_eq_some_iff v rpd d2).mp h2
      simp [checkRedisWithView, h1, h2, n1, s2]
  · obtain ⟨rfl, s1⟩ := (redisRPMBlock_eq_some_iff v now rpm d1).mp h1
    simp [checkRedisWithView, h1, s1]



/-- C2 (amended): both backends return the failure of the first saturated
dimension, but in different orders: Redis checks RPM, then RPD, then TPM;
the in-process backend checks RPM, then TPM, then RPD. -/
theorem check_first_saturated_dimension_order (stM : MemoryState) (stR : RedisState)
    (now channelId : Int) (modelName : String) (rpm tpm rpd : Int) :
    (checkChannelRateLimitMemory stM now channelId modelName rpm tpm rpd = some Dim.rpm ↔
       memRPMSaturated stM now (channelId, modelName) rpm) ∧
    (checkChannelRateLimitMemory stM now channelId modelName rpm tpm rpd = some Dim.tpm ↔
       ¬ memRPMSaturated stM now (channelId, modelName) rpm ∧
       memTPMSaturated stM now (channelId, modelName) tpm) ∧
    (checkChannelRateLimitMemory stM now channelId modelName rpm tpm rpd = some Dim.rpd ↔
       ¬ memRPMSaturated stM now (channelId, modelName) rpm ∧
       ¬ memTPMSaturated stM now (channelId, modelName) tpm ∧
       memRPDSaturated stM now (channelId, modelName) rpd) ∧
    (checkChannelRateLimitRedis stR now channelId modelName rpm tpm rpd = some Dim.rpm ↔
       redisRPMSaturated (redisCheckView stR now (channelId, modelName)) now rpm) ∧
    (checkChannelRateLimitRedis stR now channelId modelName rpm tpm rpd = some Dim.rpd ↔
       ¬ redisRPMSaturated (redisCheckView stR now (channelId, modelName)) now rpm ∧
       redisRPDSaturated (redisCheckView stR now (channelId, modelName)) rpd) ∧
    (checkChannelRateLimitRedis stR now channelId modelName rpm tpm rpd = some Dim.tpm ↔
       ¬ redisRPMSaturated (redisCheckView stR now (channelId, modelName)) now rpm ∧
       ¬ redisRPDSaturated (redisCheckView stR now (channelId, modelName)) rpd ∧
       redisTPMSaturated (redisCheckView stR now (channelId, modelName)) tpm) := by
  have hm := checkMemory_cases stM now channelId modelName rpm tpm rpd
  have hr := checkRedisView_cases (redisCheckView stR now (channelId, modelName)) now rpm tpm rpd
  exact ⟨hm.1, hm.2.1, hm.2.2.1, hr.1, hr.2.1, hr.2.2.1⟩

/-- C2 counterexample: after one Record (tokens=5) at time 0, a Check at
time 1 with limits rpm=0, tpm=5, rpd=1 finds both the TPM and the RPD
dimension saturated; the in-process backend returns the TPM failure while
the Redis backend returns the RPD failure, so the two backends do not share
the claimed RPM, RPD, TPM order. -/
theorem check_order_counterexample :
    checkChannelRateLimitMemory (recordChannelRateLimitMemory emptyMemoryState 0 1 "m" 0 5 1 5)
      1 1 "m" 0 5 1 = some Dim.tpm ∧
    checkChannelRateLimitRedis (recordChannelRateLimitRedis emptyRedisState 0 1 "m" 0 5 1 5)
      1 1 "m" 0 5 1 = some Dim.rpd ∧
    memRPDSaturated (recordChannelRateLimitMemory emptyMemoryState 0 1 "m" 0 5 1 5) 1 (1, "m") 1 ∧
    Dim.tpm ≠ Dim.rpd := by
  refine ⟨rfl, rfl, ⟨by decide, ⟨1, 24 * 3600⟩, by decide, by decide, by decide⟩, by decide⟩

/-- C4: for a key with no prior history, Records at times t and t+30
followed by a Check at t+61 with rpmLimit 2 succeed in both backends, even
though both events are still stored. -/
theorem rpm_sliding_window_aging (t : Int) :
    checkChannelRateLimitMemory
      (recordChannelRateLimitMemory (recordChannelRateLimitMemory emptyMemoryState t 1 "m" 2 0 0 0)
        (t + 30) 1 "m" 2 0 0 0) (t + 61) 1 "m" 2 0 0 = none ∧
    checkChannelRateLimitRedis
      (recordChannelRateLimitRedis (recordChannelRateLimitRedis emptyRedisState t 1 "m" 2 0 0 0)
        (t + 30) 1 "m" 2 0 0 0) (t + 61) 1 "m" 2 0 0 = none ∧
    (recordChannelRateLimitMemory (recordChannelRateLimitMemory emptyMemoryState t 1 "m" 2 0 0 0)
        (t + 30) 1 "m" 2 0 0 0).rpmStore (1, "m") = some [t, t + 30] ∧
    (recordChannelRateLimitRedis (recordChannelRateLimitRedis emptyRedisState t 1 "m" 2 0 0 0)
        (t + 30) 1 "m" 2 0 0 0).rpmKeys (1, "m") = some ⟨[t + 30, t], t + 30 + 60⟩ := by
  have h1 : t + 30 - t = (30 : Int) := by omega
  have h2 : t + 61 - t = (61 : Int) := by omega
  have h3 : t + 61 - (t + 30) = (31 : Int) := by omega
  have h4 : ¬ (t + 30 ≥ t + 60) := by omega
  have h5 : ¬ (t + 61 ≥ t + 30 + 60) := by omega
  refine ⟨?_, ?_, ?_, ?_⟩
  · simp [checkChannelRateLimitMemory, memRPMBlock, memTPMBlock, memRPDBlock,
      recordChannelRateLimitMemory, emptyMemoryState, setStore, h1, h2, h3]
  · simp [checkChannelRateLimitRedis, checkRedisWithView, redisRPMBlock, redisRPDBlock,
      redisTPMBlock, redisCheckView, redisLLen, redisLIndexLast, redisGetCounter,
      liveRedisList, liveRedisCounter, liveListValue, liveCounterValue,
      recordChannelRateLimitRedis, emptyRedisState,
      setStore, h1, h2, h3, h4, h5]
  · simp [recordChannelRateLimitMemory, emptyMemoryState, setStore, h1]
  · simp [recordChannelRateLimitRedis, emptyRedisState, setStore, liveRedisList,
      liveRedisCounter, liveListValue, liveCounterValue, h4]

/-- C6: a limit that is zero or negative (the unlimited sentinel) never
produces that dimension's saturation failure, in either backend. -/
theorem unlimited_dimension_never_saturates (stM : MemoryState) (stR : RedisState)
    (now channelId : Int) (modelName : String) (rpm tpm rpd : Int) :
    (rpm ≤ 0 →
       checkChannelRateLimitMemory stM now channelId modelName rpm tpm rpd ≠ some Dim.rpm ∧
       checkChannelRateLimitRedis stR now channelId modelName rpm tpm rpd ≠ some Dim.rpm) ∧
    (tpm ≤ 0 →
       checkChannelRateLimitMemory stM now channelId modelName rpm tpm rpd ≠ some Dim.tpm ∧
       checkChannelRateLimitRedis stR now channelId modelName rpm tpm rpd ≠ some Dim.tpm) ∧
    (rpd ≤ 0 →
       checkChannelRateLimitMemory stM now channelId modelName rpm tpm rpd ≠ some Dim.rpd ∧
       checkChannelRateLimitRedis stR now channelId modelName rpm tpm rpd ≠ some Dim.rpd) := by
  have hm := checkMemory_cases stM now channelId modelName rpm tpm rpd
  have hr := checkRedisView_cases (redisCheckView stR now (channelId, modelName)) now rpm tpm rpd
  refine ⟨fun h0 => ⟨fun hc => ?_, fun hc => ?_⟩,
          fun h0 => ⟨fun hc => ?_, fun hc => ?_⟩,
          fun h0 => ⟨fun hc => ?_, fun hc => ?_⟩⟩
  · have := (hm.1.mp hc).1; omega
  · have := (hr.1.mp hc).1; omega
  · have := ((hm.2.1.mp hc).2).1; omega
  · have := ((hr.2.2.1.mp hc).2.2).1; omega
  · have := ((hm.2.2.1.mp hc).2.2).1; omega
  · have := ((hr.2.1.mp hc).2).1; omega

/-- C8: in the Redis backend a failed store read in a dimension's check
never produces that dimension's saturation failure (fail open). -/
theorem redis_check_fails_open (v : RedisCheckView) (now rpm tpm rpd : Int) :
    ((v.llenResult = Except.error () ∨ v.lindexLastResult = Except.error ()) →
       checkRedisWithView v now rpm tpm rpd ≠ some Dim.rpm) ∧
    (v.rpdGetResult = Except.error () → checkRedisWithView v now rpm tpm rpd ≠ some Dim.rpd) ∧
    (v.tpmGetResult = Except.error () → checkRedisWithView v now rpm tpm rpd ≠ some Dim.tpm) := by
  have hv := checkRedisView_cases v now rpm tpm rpd
  refine ⟨fun he hc => ?_, fun he hc => ?_, fun he hc => ?_⟩
  · have hs := hv.1.mp hc
    rcases he with he | he
    · obtain ⟨len, hl, _⟩ := hs.2.1
      rw [he] at hl
      cases hl
    · obtain ⟨old, hl, _⟩ := hs.2.2
      rw [he] at hl
      cases hl
  · obtain ⟨val, hl, _⟩ := ((hv.2.1.mp hc).2).2
    rw [he] at hl
    cases hl
  · obtain ⟨val, hl, _⟩ := ((hv.2.2.1.mp hc).2.2).2
    rw [he] at hl
    cases hl



/-- C9: only a Check step can produce a saturation verdict; a Record step
always returns plain ok and a GetUsage step always returns a usage triple,
in both backends. -/
theorem saturation_only_from_check (stM : MemoryState) (stR : RedisState) (s : Step) :
    (∀ d : Dim, (memoryApply stM s).1 = StepResult.verdict (some d) →
       ∃ rpm tpm rpd, s.call = Call.check rpm tpm rpd) ∧
    (∀ d : Dim, (redisApply stR s).1 = StepResult.verdict (some d) →
       ∃ rpm tpm rpd, s.call = Call.check rpm tpm rpd) ∧
    (∀ rpm tpm rpd tokens, s.call = Call.record rpm tpm rpd tokens →
       (memoryApply stM s).1 = StepResult.ok ∧ (redisApply stR s).1 = StepResult.ok) ∧
    (s.call = Call.getUsage →
       (∃ a b c2, (memoryApply stM s).1 = StepResult.usage a b c2) ∧
       (∃ a b c2, (redisApply stR s).1 = StepResult.usage a b c2)) := by
  obtain ⟨time, chanId, modelN, call⟩ := s
  cases call <;> simp [memoryApply, redisApply]

/-- C10: a memory-backend Record for one (channelId, modelName) key leaves
the RPM history, TPM counter and RPD counter of every other key unchanged. -/
theorem recordMemory_frame (st : MemoryState) (now channelId : Int) (modelName : String)
    (rpm tpm rpd tokens : Int) (channelId2 : Int) (modelName2 : String)
    (h : (channelId2, modelName2) ≠ (channelId, modelName)) :
    (recordChannelRateLimitMemory st now channelId modelName rpm tpm rpd tokens).rpmStore
        (channelId2, modelName2) = st.rpmStore (channelId2, modelName2) ∧
    (recordChannelRateLimitMemory st now channelId modelName rpm tpm rpd tokens).tpmStore
        (channelId2, modelName2) = st.tpmStore (channelId2, modelName2) ∧
    (recordChannelRateLimitMemory st now channelId modelName rpm tpm rpd tokens).rpdStore
        (channelId2, modelName2) = st.rpdStore (channelId2, modelName2) := by
  unfold recordChannelRateLimitMemory
  refine ⟨?_, ?_, ?_⟩
  · exact setStore_other _ _ _ _ h
  · dsimp only
    split
    · split
      · split <;> exact setStore_other _ _ _ _ h
      · exact setStore_other _ _ _ _ h
    · rfl
  · dsimp only
    split
    · split <;> exact setStore_other _ _ _ _ h
    · exact setStore_other _ _ _ _ h



theorem trim_concat_facts (A : List Int) (now limit : Int) (h1 : 1 ≤ limit) :
    (if ((A ++ [now]).length : Int) > limit then
        (A ++ [now]).drop ((A ++ [now]).length - limit.toNat)
      else A ++ [now]).getLast? = some now ∧
    ((if ((A ++ [now]).length : Int) > limit then
        (A ++ [now]).drop ((A ++ [now]).length - limit.toNat)
      else A ++ [now]).length : Int) ≤ limit := by
  have hn : (A ++ [now]).length = A.length + 1 := by simp
  by_cases hc : ((A ++ [now]).length : Int) > limit
  · have hd : (A ++ [now]).length - limit.toNat ≤ A.length := by omega
    rw [if_pos hc]
    constructor
    · rw [List.drop_append_of_le_length hd, List.getLast?_concat]
    · rw [List.length_drop]
      omega
  · rw [if_neg hc]
    exact ⟨List.getLast?_concat _, by omega⟩



/-- C3: every Record writes the RPM history, also when the RPM limit is
zero or negative: the current timestamp is stored as the newest entry and
the stored sequence is capped at the configured limit when positive, at the
1000 monitoring default otherwise. -/
theorem record_writes_rpm_history (stM : MemoryState) (stR : RedisState)
    (now channelId : Int) (modelName : String) (rpm tpm rpd tokens : Int) :
    (∃ l, (recordChannelRateLimitMemory stM now channelId modelName rpm tpm rpd tokens).rpmStore
        (channelId, modelName) = some l ∧ l.getLast? = some now ∧
        (l.length : Int) ≤ (if 0 < rpm then rpm else 1000)) ∧
    (∃ rl, (recordChannelRateLimitRedis stR now channelId modelName rpm tpm rpd tokens).rpmKeys
        (channelId, modelName) = some rl ∧ rl.items.head? = some now ∧
        ((rl.items.length : Int) ≤ if 0 < rpm then rpm else 1000) ∧ rl.expireAt = now + 60) := by
  have hlimEq : (if 0 < rpm then rpm else 1000) = (if rpm ≤ 0 then 1000 else rpm) := by
    split_ifs <;> omega
  have hlim1 : (1 : Int) ≤ if rpm ≤ 0 then 1000 else rpm := by split_ifs <;> omega
  constructor
  · unfold recordChannelRateLimitMemory
    dsimp only
    refine ⟨_, setStore_self _ _ _, ?_, ?_⟩
    · exact (trim_concat_facts _ now _ hlim1).1
    · rw [hlimEq]
      exact (trim_concat_facts _ now _ hlim1).2
  · unfold recordChannelRateLimitRedis
    dsimp only
    refine ⟨_, setStore_self _ _ _, ?_, ?_, rfl⟩
    · obtain ⟨n, hn⟩ : ∃ n, (if rpm ≤ 0 then 1000 else rpm).toNat = n + 1 := ⟨(if rpm ≤ 0 then 1000 else rpm).toNat - 1, by omega⟩
      rw [hn, List.take_succ_cons]
      rfl
    · rw [hlimEq, List.length_take]
      omega



/-- C5: a TPM or RPD item whose expiration has passed reads as 0 in
GetUsage, never saturates a Check, and is replaced by a fresh
(value, new expiration) pair by the next Record instead of being
incremented. -/
theorem expired_counter_replaced (st : MemoryState) (now channelId : Int) (modelName : String)
    (rpm tpm rpd tokens : Int) (item : MemoryCountItem) :
    (st.tpmStore (channelId, modelName) = some item → item.expiration ≤ now →
       (getChannelRateLimitUsageMemory st now channelId modelName).2.1 = 0 ∧
       checkChannelRateLimitMemory st now channelId modelName rpm tpm rpd ≠ some Dim.tpm ∧
       (0 < tokens →
         (recordChannelRateLimitMemory st now channelId modelName rpm tpm rpd tokens).tpmStore
           (channelId, modelName) = some ⟨tokens, now + 60⟩)) ∧
    (st.rpdStore (channelId, modelName) = some item → item.expiration ≤ now →
       (getChannelRateLimitUsageMemory st now channelId modelName).2.2 = 0 ∧
       checkChannelRateLimitMemory st now channelId modelName rpm tpm rpd ≠ some Dim.rpd ∧
       (recordChannelRateLimitMemory st now channelId modelName rpm tpm rpd tokens).rpdStore
         (channelId, modelName) = some ⟨1, now + 24 * 3600⟩) := by
  constructor
  · intro hstore hexp
    have hlt : ¬ now < item.expiration := by omega
    refine ⟨?_, ?_, ?_⟩
    · simp [getChannelRateLimitUsageMemory, hstore, hlt]
    · intro hc
      obtain ⟨item2, hstore2, hlt2, _⟩ :=
        ((checkMemory_cases st now channelId modelName rpm tpm rpd).2.1.mp hc).2.2
      rw [hstore] at hstore2
      cases hstore2
      omega
    · intro htok
      simp [recordChannelRateLimitMemory, hstore, htok, setStore_self,
        show now ≥ item.expiration by omega]
  · intro hstore hexp
    have hlt : ¬ now < item.expiration := by omega
    refine ⟨?_, ?_, ?_⟩
    · simp [getChannelRateLimitUsageMemory, hstore, hlt]
    · intro hc
      obtain ⟨item2, hstore2, hlt2, _⟩ :=
        ((checkMemory_cases st now channelId modelName rpm tpm rpd).2.2.1.mp hc).2.2.2
      rw [hstore] at hstore2
      cases hstore2
      omega
    · simp [recordChannelRateLimitMemory, hstore, setStore_self,
        show now ≥ item.expiration by omega]


/-- Witness for C5 at the concrete stale state: both items expired at 50,
read at 100. -/
theorem expired_counter_replaced_witness :
    staleItemState.tpmStore (1, "m") = some ⟨7, 50⟩ ∧
    staleItemState.rpdStore (1, "m") = some ⟨7, 50⟩ ∧
    ((⟨7, 50⟩ : MemoryCountItem).expiration ≤ (100 : Int)) ∧
    ((0 : Int) < 3) ∧
    (getChannelRateLimitUsageMemory staleItemState 100 1 "m").2.1 = 0 ∧
    (getChannelRateLimitUsageMemory staleItemState 100 1 "m").2.2 = 0 ∧
    checkChannelRateLimitMemory staleItemState 100 1 "m" 1 1 1 ≠ some Dim.tpm ∧
    checkChannelRateLimitMemory staleItemState 100 1 "m" 1 1 1 ≠ some Dim.rpd ∧
    (recordChannelRateLimitMemory staleItemState 100 1 "m" 1 1 1 3).tpmStore (1, "m") =
      some ⟨3, 100 + 60⟩ ∧
    (recordChannelRateLimitMemory staleItemState 100 1 "m" 1 1 1 3).rpdStore (1, "m") =
      some ⟨1, 100 + 24 * 3600⟩ := by
  have h := expired_counter_replaced staleItemState 100 1 "m" 1 1 1 3 ⟨7, 50⟩
  have h1 := h.1 rfl (by decide)
  have h2 := h.2 rfl (by decide)
  exact ⟨rfl, rfl, by decide, by decide, h1.1, h2.1, h1.2.1, h2.2.1, h1.2.2 (by decide), h2.2.2⟩

/-- Witness for C6 with unlimited limits rpm=0, tpm=-1, rpd=0. -/
theorem unlimited_dimension_never_saturates_witness :
    ((0 : Int) ≤ 0) ∧ ((-1 : Int) ≤ 0) ∧
    checkChannelRateLimitMemory emptyMemoryState 0 1 "m" 0 (-1) 0 ≠ some Dim.rpm ∧
    checkChannelRateLimitRedis emptyRedisState 0 1 "m" 0 (-1) 0 ≠ some Dim.rpm ∧
    checkChannelRateLimitMemory emptyMemoryState 0 1 "m" 0 (-1) 0 ≠ some Dim.tpm ∧
    checkChannelRateLimitRedis emptyRedisState 0 1 "m" 0 (-1) 0 ≠ some Dim.tpm ∧
    checkChannelRateLimitMemory emptyMemoryState 0 1 "m" 0 (-1) 0 ≠ some Dim.rpd ∧
    checkChannelRateLimitRedis emptyRedisState 0 1 "m" 0 (-1) 0 ≠ some Dim.rpd := by
  have h := unlimited_dimension_never_saturates emptyMemoryState emptyRedisState 0 1 "m" 0 (-1) 0
  have ha := h.1 (by decide)
  have hb := h.2.1 (by decide)
  have hc := h.2.2 (by decide)
  exact ⟨by decide, by decide, ha.1, ha.2, hb.1, hb.2, hc.1, hc.2⟩

/-- Witness for C8 at the all-errors view. -/
theorem redis_check_fails_open_witness :
    allErrorsView.llenResult = Except.error () ∧
    allErrorsView.rpdGetResult = Except.error () ∧
    allErrorsView.tpmGetResult = Except.error () ∧
    checkRedisWithView allErrorsView 0 1 1 1 ≠ some Dim.rpm ∧
    checkRedisWithView allErrorsView 0 1 1 1 ≠ some Dim.rpd ∧
    checkRedisWithView allErrorsView 0 1 1 1 ≠ some Dim.tpm := by
  have h := redis_check_fails_open allErrorsView 0 1 1 1
  exact ⟨rfl, rfl, rfl, h.1 (Or.inl rfl), h.2.1 rfl, h.2.2 rfl⟩

/-- Witness for C9 at one concrete Record step and one GetUsage step. -/
theorem saturation_only_from_check_witness :
    (Step.mk 0 1 "m" (Call.record 1 1 1 1)).call = Call.record 1 1 1 1 ∧
    (memoryApply emptyMemoryState ⟨0, 1, "m", Call.record 1 1 1 1⟩).1 = StepResult.ok ∧
    (redisApply emptyRedisState ⟨0, 1, "m", Call.record 1 1 1 1⟩).1 = StepResult.ok ∧
    (∃ a b c2, (memoryApply emptyMemoryState ⟨0, 1, "m", Call.getUsage⟩).1 = StepResult.usage a b c2) ∧
    (∃ a b c2, (redisApply emptyRedisState ⟨0, 1, "m", Call.getUsage⟩).1 = StepResult.usage a b c2) := by
  have h1 := (saturation_only_from_check emptyMemoryState emptyRedisState
    ⟨0, 1, "m", Call.record 1 1 1 1⟩).2.2.1 1 1 1 1 rfl
  have h2 := (saturation_only_from_check emptyMemoryState emptyRedisState
    ⟨0, 1, "m", Call.getUsage⟩).2.2.2 rfl
  exact ⟨rfl, h1.1, h1.2, h2.1, h2.2⟩

/-- Witness for C10: a Record at key (1, "m") leaves key (2, "x") unchanged. -/
theorem recordMemory_frame_witness :
    (((2 : Int), "x") ≠ ((1 : Int), "m")) ∧
    (recordChannelRateLimitMemory emptyMemoryState 0 1 "m" 1 1 1 1).rpmStore (2, "x") =
      emptyMemoryState.rpmStore (2, "x") ∧
    (recordChannelRateLimitMemory emptyMemoryState 0 1 "m" 1 1 1 1).tpmStore (2, "x") =
      emptyMemoryState.tpmStore (2, "x") ∧
    (recordChannelRateLimitMemory emptyMemoryState 0 1 "m" 1 1 1 1).rpdStore (2, "x") =
      emptyMemoryState.rpdStore (2, "x") := by
  have h := recordMemory_frame emptyMemoryState 0 1 "m" 1 1 1 1 2 "x" (by decide)
  exact ⟨by decide, h.1, h.2.1, h.2.2⟩


theorem recordMemory_tpm_fresh (st : MemoryState) (now channelId : Int) (modelName : String)
    (rpm tpm rpd tokens : Int) (htok : 0 < tokens)
    (h : st.tpmStore (channelId, modelName) = none) :
    (recordChannelRateLimitMemory st now channelId modelName rpm tpm rpd tokens).tpmStore
      (channelId, modelName) = some ⟨tokens, now + 60⟩ := by
  simp [recordChannelRateLimitMemory, h, htok, setStore_self]

theorem recordMemory_tpm_live (st : MemoryState) (now channelId : Int) (modelName : String)
    (rpm tpm rpd tokens cnt E : Int) (htok : 0 < tokens)
    (h : st.tpmStore (channelId, modelName) = some ⟨cnt, E⟩) (hlt : now < E) :
    (recordChannelRateLimitMemory st now channelId modelName rpm tpm rpd tokens).tpmStore
      (channelId, modelName) = some ⟨cnt + tokens, E⟩ := by
  simp [recordChannelRateLimitMemory, h, htok, setStore_self, show ¬ now ≥ E by omega]

theorem recordSeqMemory_tpm_accumulate (channelId : Int) (modelName : String)
    (rpm tpm rpd : Int) (records : List (Int × Int)) :
    ∀ (st : MemoryState) (cnt E : Int),
    st.tpmStore (channelId, modelName) = some ⟨cnt, E⟩ →
    (∀ p ∈ records, 0 < p.2 ∧ p.1 < E) →
    (recordSeqMemory st channelId modelName rpm tpm rpd records).tpmStore (channelId, modelName) =
      some ⟨cnt + (records.map Prod.snd).sum, E⟩ := by
  induction records with
  | nil => intro st cnt E h _; simpa [recordSeqMemory] using h
  | cons p rest ih =>
    intro st cnt E h hall
    have hp := hall p (List.mem_cons_self p rest)
    have hstep := recordMemory_tpm_live st p.1 channelId modelName rpm tpm rpd p.2 cnt E hp.1 h hp.2
    have := ih (recordChannelRateLimitMemory st p.1 channelId modelName rpm tpm rpd p.2)
      (cnt + p.2) E hstep (fun q hq => hall q (List.mem_cons_of_mem p hq))
    rw [recordSeqMemory, this]
    congr 1
    simp
    omega


/-- C7: starting from no TPM state, Record calls with positive token counts
all inside the first call's minute window accumulate into tpm = sum of the
tokens; once that window has expired GetUsage reports tpm = 0. -/
theorem tpm_window_sum_then_reset (st0 : MemoryState) (channelId : Int) (modelName : String)
    (rpm tpm rpd s firstTokens : Int) (rest : List (Int × Int)) (u : Int)
    (h0 : st0.tpmStore (channelId, modelName) = none)
    (hft : 0 < firstTokens)
    (hrest : ∀ p ∈ rest, 0 < p.2 ∧ s ≤ p.1 ∧ p.1 < s + 60) :
    (u < s + 60 →
      (getChannelRateLimitUsageMemory
        (recordSeqMemory st0 channelId modelName rpm tpm rpd ((s, firstTokens) :: rest))
        u channelId modelName).2.1 = firstTokens + (rest.map Prod.snd).sum) ∧
    (s + 60 ≤ u →
      (getChannelRateLimitUsageMemory
        (recordSeqMemory st0 channelId modelName rpm tpm rpd ((s, firstTokens) :: rest))
        u channelId modelName).2.1 = 0) := by
  have h1 := recordMemory_tpm_fresh st0 s channelId modelName rpm tpm rpd firstTokens hft h0
  have h2 := recordSeqMemory_tpm_accumulate channelId modelName rpm tpm rpd rest
    (recordChannelRateLimitMemory st0 s channelId modelName rpm tpm rpd firstTokens)
    firstTokens (s + 60) h1 (fun p hp => ⟨(hrest p hp).1, (hrest p hp).2.2⟩)
  constructor
  · intro hu
    simp only [recordSeqMemory]
    simp [getChannelRateLimitUsageMemory, h2, hu]
  · intro hu
    simp only [recordSeqMemory]
    simp [getChannelRateLimitUsageMemory, h2, show ¬ u < s + 60 by omega]

/-- Witness for C7: tokens 2, 3, 5 recorded at times 0, 10, 20; tpm reads 10
at time 30 and 0 at time 60. -/
theorem tpm_window_sum_then_reset_witness :
    emptyMemoryState.tpmStore (1, "m") = none ∧ ((0 : Int) < 2) ∧
    (∀ p ∈ [((10 : Int), (3 : Int)), (20, 5)], 0 < p.2 ∧ (0 : Int) ≤ p.1 ∧ p.1 < 0 + 60) ∧
    (getChannelRateLimitUsageMemory
      (recordSeqMemory emptyMemoryState 1 "m" 1 1 1 [(0, 2), (10, 3), (20, 5)])
      30 1 "m").2.1 = 2 + ([((10 : Int), (3 : Int)), (20, 5)].map Prod.snd).sum ∧
    (getChannelRateLimitUsageMemory
      (recordSeqMemory emptyMemoryState 1 "m" 1 1 1 [(0, 2), (10, 3), (20, 5)])
      60 1 "m").2.1 = 0 := by
  refine ⟨rfl, by decide, by decide, ?_, ?_⟩
  · exact (tpm_window_sum_then_reset emptyMemoryState 1 "m" 1 1 1 0 2 [(10, 3), (20, 5)] 30
      rfl (by decide) (by decide)).1 (by decide)
  · exact (tpm_window_sum_then_reset emptyMemoryState 1 "m" 1 1 1 0 2 [(10, 3), (20, 5)] 60
      rfl (by decide) (by decide)).2 (by decide)


theorem liveP_of_ge {now x y : Int} (hxy : y ≤ x) (hy : now - y < 60) : now - x < 60 := by
  omega

theorem all_dead_of_head_dead {now x : Int} {t : List Int}
    (hs : List.Sorted (· ≥ ·) (x :: t)) (hx : ¬ now - x < 60) :
    ∀ y ∈ x :: t, ¬ now - y < 60 := by
  intro y hy
  rcases List.mem_cons.mp hy with rfl | hy
  · exact hx
  · have := (List.sorted_cons.mp hs).1 y hy
    omega

theorem countLive_nil (now : Int) : countLive now [] = 0 := rfl

theorem countLive_cons (now x : Int) (t : List Int) :
    countLive now (x :: t) = countLive now t + if now - x < 60 then 1 else 0 := by
  simp [countLive, List.countP_cons]

theorem countLive_le_length (now : Int) (l : List Int) : countLive now l ≤ l.length :=
  List.countP_le_length _

theorem countLive_reverse (now : Int) (l : List Int) :
    countLive now l.reverse = countLive now l := by
  simp [countLive, List.countP_reverse]

theorem countLive_eq_zero_of_all_dead {now : Int} {l : List Int}
    (h : ∀ y ∈ l, ¬ now - y < 60) : countLive now l = 0 := by
  simp only [countLive, List.countP_eq_zero]
  intro a ha
  simpa using h a ha

theorem filter_live_sorted_eq_take (now : Int) :
    ∀ (H : List Int), List.Sorted (· ≥ ·) H →
      H.filter (fun ts => decide (now - ts < 60)) = H.take (countLive now H) := by
  intro H
  induction H with
  | nil => intro _; rfl
  | cons x t ih =>
    intro hs
    by_cases hx : now - x < 60
    · rw [countLive_cons]
      simp only [if_pos hx]
      rw [List.filter_cons_of_pos (by simpa using hx), List.take_succ_cons]
      rw [ih (List.sorted_cons.mp hs).2]
    · have hall := all_dead_of_head_dead hs hx
      have h0 : countLive now (x :: t) = 0 := countLive_eq_zero_of_all_dead hall
      rw [h0]
      simp only [List.take_zero]
      apply List.filter_eq_nil_iff.mpr
      intro a ha
      simpa using hall a ha

theorem countLive_take_sorted (now : Int) :
    ∀ (H : List Int), List.Sorted (· ≥ ·) H →
      ∀ j : Nat, countLive now (H.take j) = min (countLive now H) j := by
  intro H
  induction H with
  | nil => intro _ j; simp [countLive_nil, countLive]
  | cons x t ih =>
    intro hs j
    cases j with
    | zero => simp [countLive]
    | succ j =>
      rw [List.take_succ_cons, countLive_cons, countLive_cons,
        ih (List.sorted_cons.mp hs).2 j]
      by_cases hx : now - x < 60
      · simp only [if_pos hx]
        omega
      · have hall := all_dead_of_head_dead hs hx
        have h0 : countLive now t = 0 := countLive_eq_zero_of_all_dead
          (fun y hy => hall y (List.mem_cons_of_mem x hy))
        have h1 : countLive now (t.take j) = 0 := countLive_eq_zero_of_all_dead
          (fun y hy => hall y (List.mem_cons_of_mem x (List.mem_of_mem_take hy)))
        simp only [if_neg hx]
        omega


theorem live_of_mem_take_countLive {now : Int} {H : List Int}
    (hs : List.Sorted (· ≥ ·) H) {x : Int} (hx : x ∈ H.take (countLive now H)) :
    now - x < 60 := by
  have hf := filter_live_sorted_eq_take now H hs
  rw [← hf] at hx
  simpa using (List.mem_filter.mp hx).2

theorem dead_of_mem_drop_countLive {now : Int} {H : List Int}
    (hs : List.Sorted (· ≥ ·) H) {x : Int} (hx : x ∈ H.drop (countLive now H)) :
    ¬ now - x < 60 := by
  set A := countLive now H with hA
  have hsplit : countLive now (H.take A) + countLive now (H.drop A) = A := by
    have := List.countP_append (fun ts => decide (now - ts < 60)) (H.take A) (H.drop A)
    rw [List.take_append_drop] at this
    simpa [countLive] using this.symm
  have htake : countLive now (H.take A) = A := by
    rw [countLive_take_sorted now H hs A]
    omega
  have hdrop : countLive now (H.drop A) = 0 := by omega
  have := List.countP_eq_zero.mp hdrop x hx
  simpa using this

theorem sorted_all_ge_getLast :
    ∀ (l : List Int), List.Sorted (· ≥ ·) l → ∀ a, l.getLast? = some a → ∀ x ∈ l, a ≤ x := by
  intro l
  induction l with
  | nil => intro _ a ha; cases ha
  | cons x t ih =>
    intro hs a ha y hy
    cases t with
    | nil =>
      simp only [List.getLast?_singleton, Option.some.injEq] at ha
      rcases List.mem_singleton.mp hy with rfl
      omega
    | cons z u =>
      rw [List.getLast?_cons_cons] at ha
      have hst := (List.sorted_cons.mp hs).2
      rcases List.mem_cons.mp hy with rfl | hy
      · have hmem : a ∈ z :: u := by
          have : (z :: u).getLast? = some ((z :: u).getLast (by simp)) := List.getLast?_eq_getLast _ _
          rw [this] at ha
          cases ha
          exact List.getLast_mem _
        have := (List.sorted_cons.mp hs).1 a hmem
        omega
      · exact ih hst a ha y hy

theorem chain_cons_form : ∀ (w : Int) (rest : List Int), ∃ l2, chain (w :: rest) = w :: l2 := by
  intro w rest
  cases rest with
  | nil => exact ⟨[], rfl⟩
  | cons t2 u =>
    by_cases h : w - t2 < 60
    · exact ⟨chain (t2 :: u), by rw [chain, if_pos h]⟩
    · exact ⟨[], by rw [chain, if_neg h]⟩

theorem chain_sublist : ∀ (H : List Int), (chain H).Sublist H := by
  intro H
  induction H with
  | nil => exact List.Sublist.refl _
  | cons x t ih =>
    cases t with
    | nil => exact List.Sublist.refl _
    | cons t2 u =>
      rw [chain]
      split
      · exact List.Sublist.cons₂ x ih
      · simp

theorem chain_sorted {H : List Int} (hs : List.Sorted (· ≥ ·) H) :
    List.Sorted (· ≥ ·) (chain H) :=
  List.Pairwise.sublist (chain_sublist H) hs

theorem countLive_chain (now : Int) :
    ∀ (H : List Int), List.Sorted (· ≥ ·) H → (∀ x ∈ H, x ≤ now) →
      countLive now (chain H) = countLive now H := by
  intro H
  induction H with
  | nil => intro _ _; rfl
  | cons x t ih =>
    intro hs hb
    cases t with
    | nil => rfl
    | cons t2 u =>
      rw [chain]
      by_cases h : x - t2 < 60
      · rw [if_pos h, countLive_cons, countLive_cons,
          ih (List.sorted_cons.mp hs).2 (fun y hy => hb y (List.mem_cons_of_mem x hy))]
      · rw [if_neg h]
        have hx : x ≤ now := hb x (List.mem_cons_self x _)
        have hdead : ∀ y ∈ t2 :: u, ¬ now - y < 60 := by
          have hs2 := (List.sorted_cons.mp hs).2
          apply all_dead_of_head_dead hs2
          omega
        have h0 : countLive now (t2 :: u) = 0 := countLive_eq_zero_of_all_dead hdead
        rw [countLive_cons, countLive_cons, h0]
        rfl


theorem rpm_saturation_eq (r : Int) (hr : 0 < r) (now : Int) (H : List Int)
    (hs : List.Sorted (· ≥ ·) H) (hb : ∀ x ∈ H, x ≤ now) :
    (r ≤ (((chain H).take r.toNat).length : Int) ∧
      ∃ old, ((chain H).take r.toNat).getLast? = some old ∧ now - old < 60) ↔
    r ≤ (countLive now H : Int) := by
  have hCsorted := chain_sorted hs
  have hCL : countLive now (chain H) = countLive now H := countLive_chain now H hs hb
  have hLcount : countLive now ((chain H).take r.toNat)
      = min (countLive now (chain H)) r.toNat := countLive_take_sorted now (chain H) hCsorted _
  constructor
  · rintro ⟨hlen, old, hlast, hold⟩
    have hall : ∀ x ∈ (chain H).take r.toNat, old ≤ x :=
      sorted_all_ge_getLast _ (List.Pairwise.take hCsorted) old hlast
    have hlive : countLive now ((chain H).take r.toNat)
        = ((chain H).take r.toNat).length := by
      apply List.countP_eq_length.mpr
      intro a ha
      have := hall a ha
      simp only [decide_eq_true_eq]
      omega
    omega
  · intro hA
    have hClen : r.toNat ≤ (chain H).length := by
      by_contra hc
      push_neg at hc
      have h2 := countLive_le_length now (chain H)
      omega
    have hLlen : ((chain H).take r.toNat).length = r.toNat := by
      rw [List.length_take]
      omega
    have hLcountEq : countLive now ((chain H).take r.toNat)
        = ((chain H).take r.toNat).length := by omega
    have hlive := List.countP_eq_length.mp hLcountEq
    have hLne : (chain H).take r.toNat ≠ [] := by
      intro h
      rw [h] at hLlen
      simp at hLlen
      omega
    have hold : ((chain H).take r.toNat).getLast? =
        some (((chain H).take r.toNat).getLast hLne) := List.getLast?_eq_getLast _ _
    refine ⟨by omega, ((chain H).take r.toNat).getLast hLne, hold, ?_⟩
    have hmem := List.getLast_mem hLne
    have := hlive _ hmem
    simpa using this

theorem mem_count_hit_iff (r : Int) (hr : 0 < r) (t0 now : Int) (hnow : t0 ≤ now)
    (H : List Int) (hs : List.Sorted (· ≥ ·) H) (m : Nat)
    (hm : m ≤ min r.toNat H.length)
    (hgap : ∀ x ∈ (H.take r.toNat).drop m, t0 - x ≥ 60) :
    (r ≤ (countLive now (H.take m) : Int)) ↔ r ≤ (countLive now H : Int) := by
  have hcnt : countLive now (H.take m) = min (countLive now H) m :=
    countLive_take_sorted now H hs m
  have hAlen := countLive_le_length now H
  constructor
  · intro h
    omega
  · intro hA
    by_cases hmr : r.toNat ≤ m
    · omega
    · push_neg at hmr
      exfalso
      have hmH : m < H.length := by omega
      have hmA : m < countLive now H := by omega
      have hdropLen : 0 < ((H.take r.toNat).drop m).length := by
        rw [List.length_drop, List.length_take]
        omega
      have hx1 : ((H.take r.toNat).drop m).get ⟨0, hdropLen⟩ ∈ (H.take r.toNat).drop m :=
        List.get_mem _ _ _
      have hx2 : ((H.take r.toNat).drop m).get ⟨0, hdropLen⟩ = H.get ⟨m, hmH⟩ := by
        simp [List.get_eq_getElem, List.getElem_drop, List.getElem_take]
      have hlt : m < (H.take (countLive now H)).length := by
        rw [List.length_take]
        omega
      have hx3 : H.get ⟨m, hmH⟩ ∈ H.take (countLive now H) := by
        have hmem := List.get_mem (H.take (countLive now H)) m hlt
        have heq : (H.take (countLive now H)).get ⟨m, hlt⟩ = H.get ⟨m, hmH⟩ := by
          simp [List.get_eq_getElem, List.getElem_take]
        rwa [heq] at hmem
      have hlive := live_of_mem_take_countLive hs hx3
      have hdead := hgap _ hx1
      rw [hx2] at hdead
      omega


theorem memRPMBlock_isSome (st : MemoryState) (now : Int) (key : Key) (rpm : Int) :
    (memRPMBlock st now key rpm).isSome = true ↔ memRPMSaturated st now key rpm := by
  cases h : memRPMBlock st now key rpm with
  | none =>
    simp only [Option.isSome_none, Bool.false_eq_true, false_iff]
    exact (memRPMBlock_eq_none_iff st now key rpm).mp h
  | some d =>
    simp only [Option.isSome_some, true_iff]
    exact ((memRPMBlock_eq_some_iff st now key rpm d).mp h).2

theorem redisRPMBlock_isSome (v : RedisCheckView) (now rpm : Int) :
    (redisRPMBlock v now rpm).isSome = true ↔ redisRPMSaturated v now rpm := by
  cases h : redisRPMBlock v now rpm with
  | none =>
    simp only [Option.isSome_none, Bool.false_eq_true, false_iff]
    exact (redisRPMBlock_eq_none_iff v now rpm).mp h
  | some d =>
    simp only [Option.isSome_some, true_iff]
    exact ((redisRPMBlock_eq_some_iff v now rpm d).mp h).2

theorem rpm_hit_agree (r t0 now : Int) (hr : 0 < r) (hnow : t0 ≤ now)
    (ms : MemoryState) (rs : RedisState) (k : Key)
    (hrel : rpmRel r t0 (ms.rpmStore k) (rs.rpmKeys k)) :
    (memRPMBlock ms now k r).isSome = (redisRPMBlock (redisCheckView rs now k) now r).isSome := by
  rw [Bool.eq_iff_iff, memRPMBlock_isSome, redisRPMBlock_isSome]
  rcases hrel with ⟨hml, hrl⟩ | ⟨w, rest, m, hsort, hbound, hrlEq, hm, hmlEq, hgap⟩
  · -- both keys absent: neither side is saturated
    constructor
    · rintro ⟨-, tss, htss, -⟩
      rw [hml] at htss
      cases htss
    · rintro ⟨-, ⟨len, hlen, hrle⟩, -⟩
      have : redisLLen rs now k = 0 := by
        simp [redisLLen, liveRedisList, liveListValue, hrl]
      simp only [redisCheckView] at hlen
      cases hlen
      omega
  · have hbw : ∀ x ∈ w :: rest, x ≤ w := by
      intro x hx
      rcases List.mem_cons.mp hx with rfl | hx
      · omega
      · have := (List.sorted_cons.mp hsort).1 x hx
        omega
    have hbnow : ∀ x ∈ w :: rest, x ≤ now := fun x hx => le_trans (hbound x hx) hnow
    have hrev : ((w :: rest).take m).reverse.countP (fun ts => decide (now - ts < 60))
        = countLive now ((w :: rest).take m) := countLive_reverse now _
    by_cases hlive : now ≥ w + 60
    · -- the Redis key's TTL has elapsed and every stored timestamp is dead
      have hdeadH : ∀ x ∈ w :: rest, ¬ now - x < 60 := fun x hx => by
        have := hbw x hx
        omega
      constructor
      · rintro ⟨-, tss, htss, hcnt⟩
        rw [hmlEq] at htss
        cases htss
        rw [hrev] at hcnt
        have h0 : countLive now ((w :: rest).take m) = 0 :=
          countLive_eq_zero_of_all_dead (fun y hy => hdeadH y (List.mem_of_mem_take hy))
        omega
      · rintro ⟨-, ⟨len, hlen, hrle⟩, -⟩
        have : redisLLen rs now k = 0 := by
          simp [redisLLen, liveRedisList, liveListValue, hrlEq, hlive]
        simp only [redisCheckView] at hlen
        cases hlen
        omega
    · push_neg at hlive
      have hnlive : ¬ now ≥ w + 60 := by omega
      have hview1 : redisLLen rs now k = (((chain (w :: rest)).take r.toNat).length : Int) := by
        simp [redisLLen, liveRedisList, liveListValue, hrlEq, hnlive]
      have hview2 : redisLIndexLast rs now k =
          (match ((chain (w :: rest)).take r.toNat).getLast? with
           | some v => Except.ok v
           | none => Except.error ()) := by
        simp [redisLIndexLast, liveRedisList, liveListValue, hrlEq, hnlive]
      have hiff1 := rpm_saturation_eq r hr now (w :: rest) hsort hbnow
      have hiff2 := mem_count_hit_iff r hr t0 now hnow (w :: rest) hsort m hm hgap
      constructor
      · rintro ⟨-, tss, htss, hcnt⟩
        rw [hmlEq] at htss
        cases htss
        rw [hrev] at hcnt
        have hA : r ≤ (countLive now (w :: rest) : Int) := hiff2.mp hcnt
        obtain ⟨hlen, old, hlast, hold⟩ := hiff1.mpr hA
        refine ⟨hr, ⟨(((chain (w :: rest)).take r.toNat).length : Int), ?_, hlen⟩,
          old, ?_, hold⟩
        · simp only [redisCheckView, hview1]
        · simp only [redisCheckView, hview2, hlast]
      · rintro ⟨-, ⟨len, hlen, hrle⟩, old, hold, holdlive⟩
        simp only [redisCheckView, hview1] at hlen
        cases hlen
        simp only [redisCheckView, hview2] at hold
        have hlast : ((chain (w :: rest)).take r.toNat).getLast? = some old := by
          cases hgl : ((chain (w :: rest)).take r.toNat).getLast? with
          | none => rw [hgl] at hold; cases hold
          | some v => rw [hgl] at hold; cases hold; rfl
        have hA := hiff1.mp ⟨hrle, old, hlast, holdlive⟩
        refine ⟨hr, ((w :: rest).take m).reverse, hmlEq, ?_⟩
        rw [hrev]
        exact hiff2.mpr hA


theorem memTPMBlock_isSome (st : MemoryState) (now : Int) (key : Key) (tpm : Int) :
    (memTPMBlock st now key tpm).isSome = true ↔ memTPMSaturated st now key tpm := by
  cases h : memTPMBlock st now key tpm with
  | none =>
    simp only [Option.isSome_none, Bool.false_eq_true, false_iff]
    exact (memTPMBlock_eq_none_iff st now key tpm).mp h
  | some d =>
    simp only [Option.isSome_some, true_iff]
    exact ((memTPMBlock_eq_some_iff st now key tpm d).mp h).2

theorem memRPDBlock_isSome (st : MemoryState) (now : Int) (key : Key) (rpd : Int) :
    (memRPDBlock st now key rpd).isSome = true ↔ memRPDSaturated st now key rpd := by
  cases h : memRPDBlock st now key rpd with
  | none =>
    simp only [Option.isSome_none, Bool.false_eq_true, false_iff]
    exact (memRPDBlock_eq_none_iff st now key rpd).mp h
  | some d =>
    simp only [Option.isSome_some, true_iff]
    exact ((memRPDBlock_eq_some_iff st now key rpd d).mp h).2

theorem redisTPMBlock_isSome (v : RedisCheckView) (tpm : Int) :
    (redisTPMBlock v tpm).isSome = true ↔ redisTPMSaturated v tpm := by
  cases h : redisTPMBlock v tpm with
  | none =>
    simp only [Option.isSome_none, Bool.false_eq_true, false_iff]
    exact (redisTPMBlock_eq_none_iff v tpm).mp h
  | some d =>
    simp only [Option.isSome_some, true_iff]
    exact ((redisTPMBlock_eq_some_iff v tpm d).mp h).2

theorem redisRPDBlock_isSome (v : RedisCheckView) (rpd : Int) :
    (redisRPDBlock v rpd).isSome = true ↔ redisRPDSaturated v rpd := by
  cases h : redisRPDBlock v rpd with
  | none =>
    simp only [Option.isSome_none, Bool.false_eq_true, false_iff]
    exact (redisRPDBlock_eq_none_iff v rpd).mp h
  | some d =>
    simp only [Option.isSome_some, true_iff]
    exact ((redisRPDBlock_eq_some_iff v rpd d).mp h).2

theorem counter_get_of_rel {mstore : Key → Option MemoryCountItem}
    {rstore : Key → Option RedisCounter} (h : counterRel mstore rstore)
    (now : Int) (k : Key) :
    redisGetCounter rstore now k =
      (match mstore k with
       | some it => if now < it.expiration then Except.ok it.count else Except.error ()
       | none => Except.error ()) := by
  have h1 := (h k).1
  cases hmk : mstore k with
  | none =>
    rw [hmk] at h1
    simp [redisGetCounter, liveRedisCounter, liveCounterValue, h1]
  | some it =>
    rw [hmk] at h1
    by_cases he : now ≥ it.expiration
    · simp [redisGetCounter, liveRedisCounter, liveCounterValue, h1, he,
        show ¬ now < it.expiration by omega]
    · simp [redisGetCounter, liveRedisCounter, liveCounterValue, h1, he,
        show now < it.expiration by omega]

theorem tpm_hit_agree (now : Int) (ms : MemoryState) (rs : RedisState) (k : Key)
    (h : counterRel ms.tpmStore rs.tpmKeys) (tpm : Int) :
    (memTPMBlock ms now k tpm).isSome = (redisTPMBlock (redisCheckView rs now k) tpm).isSome := by
  rw [Bool.eq_iff_iff, memTPMBlock_isSome, redisTPMBlock_isSome]
  have hget := counter_get_of_rel h now k
  constructor
  · rintro ⟨ht, item, hitem, hlt, hcnt⟩
    refine ⟨ht, item.count, ?_, hcnt⟩
    simp only [redisCheckView, hget, hitem, if_pos hlt]
  · rintro ⟨ht, val, hval, hcnt⟩
    simp only [redisCheckView, hget] at hval
    cases hitem : ms.tpmStore k with
    | none =>
      simp only [hitem] at hval
      cases hval
    | some item =>
      simp only [hitem] at hval
      by_cases hlt : now < item.expiration
      · rw [if_pos hlt] at hval
        cases hval
        exact ⟨ht, item, hitem, hlt, hcnt⟩
      · rw [if_neg hlt] at hval
        cases hval

theorem rpd_hit_agree (now : Int) (ms : MemoryState) (rs : RedisState) (k : Key)
    (h : counterRel ms.rpdStore rs.rpdKeys) (rpd : Int) :
    (memRPDBlock ms now k rpd).isSome = (redisRPDBlock (redisCheckView rs now k) rpd).isSome := by
  rw [Bool.eq_iff_iff, memRPDBlock_isSome, redisRPDBlock_isSome]
  have hget := counter_get_of_rel h now k
  constructor
  · rintro ⟨ht, item, hitem, hlt, hcnt⟩
    refine ⟨ht, item.count, ?_, hcnt⟩
    simp only [redisCheckView, hget, hitem, if_pos hlt]
  · rintro ⟨ht, val, hval, hcnt⟩
    simp only [redisCheckView, hget] at hval
    cases hitem : ms.rpdStore k with
    | none =>
      simp only [hitem] at hval
      cases hval
    | some item =>
      simp only [hitem] at hval
      by_cases hlt : now < item.expiration
      · rw [if_pos hlt] at hval
        cases hval
        exact ⟨ht, item, hitem, hlt, hcnt⟩
      · rw [if_neg hlt] at hval
        cases hval

theorem check_verdict_agree (r t0 now : Int) (hr : 0 < r) (hnow : t0 ≤ now)
    (ms : MemoryState) (rs : RedisState) (channelId : Int) (modelName : String)
    (tpm rpd : Int) (hinv : backendInv r t0 ms rs) :
    (checkChannelRateLimitMemory ms now channelId modelName r tpm rpd).isSome
      = (checkChannelRateLimitRedis rs now channelId modelName r tpm rpd).isSome := by
  obtain ⟨h1, h2, h3⟩ := hinv
  have e1 := rpm_hit_agree r t0 now hr hnow ms rs (channelId, modelName) (h3 (channelId, modelName))
  have e2 := tpm_hit_agree now ms rs (channelId, modelName) h1 tpm
  have e3 := rpd_hit_agree now ms rs (channelId, modelName) h2 rpd
  have horElse : ∀ (a b : Option Dim), (a <|> b).isSome = (a.isSome || b.isSome) := by
    intro a b
    cases a <;> simp
  simp only [checkChannelRateLimitMemory, checkChannelRateLimitRedis, checkRedisWithView,
    horElse, e1, e2, e3]
  cases (redisRPMBlock (redisCheckView rs now (channelId, modelName)) now r).isSome <;>
    cases (redisRPDBlock (redisCheckView rs now (channelId, modelName)) rpd).isSome <;>
      cases (redisTPMBlock (redisCheckView rs now (channelId, modelName)) tpm).isSome <;>
        rfl


theorem counter_usage_eq {mstore : Key → Option MemoryCountItem}
    {rstore : Key → Option RedisCounter} (h : counterRel mstore rstore)
    (now : Int) (k : Key) :
    (match redisGetCounter rstore now k with
     | Except.ok v => v
     | Except.error _ => 0) =
    (match mstore k with
     | some item => if now < item.expiration then item.count else 0
     | none => (0 : Int)) := by
  rw [counter_get_of_rel h]
  cases hmk : mstore k with
  | none => rfl
  | some item =>
    by_cases hlt : now < item.expiration
    · simp [hlt]
    · simp [hlt]

theorem usage_tpm_rpd_agree (now : Int) (ms : MemoryState) (rs : RedisState)
    (channelId : Int) (modelName : String)
    (h1 : counterRel ms.tpmStore rs.tpmKeys) (h2 : counterRel ms.rpdStore rs.rpdKeys) :
    (getChannelRateLimitUsageMemory ms now channelId modelName).2
      = (getChannelRateLimitUsageRedis rs now channelId modelName).2 := by
  have e1 := counter_usage_eq h1 now (channelId, modelName)
  have e2 := counter_usage_eq h2 now (channelId, modelName)
  simp only [getChannelRateLimitUsageMemory, getChannelRateLimitUsageRedis]
  exact Prod.ext (by rw [e1]) (by rw [e2])


theorem take_cons_take_of_le (k f : Nat) (hkf : k ≤ f) (x : Int) (l : List Int) :
    (x :: l.take f).take (k + 1) = (x :: l).take (k + 1) := by
  simp [List.take_succ_cons, List.take_take, Nat.min_eq_left hkf]

theorem drop_split_at (l : List Int) (f m : Nat) (hfm : f ≤ m) (hfl : f ≤ l.length) :
    l.drop f = (l.take m).drop f ++ l.drop m := by
  conv_lhs => rw [← List.take_append_drop m l]
  rw [List.drop_append_of_le_length]
  rw [List.length_take]
  omega

theorem drop_reverse_eq (l : List Int) (d : Nat) (hd : d ≤ l.length) :
    l.reverse.drop d = (l.take (l.length - d)).reverse := by
  rw [List.reverse_take]
  congr 1
  omega

theorem trimmedRPM_eq (now r : Int) (hr : 0 < r) (H : List Int) (m : Nat)
    (hs : List.Sorted (· ≥ ·) H) (hmH : m ≤ H.length) :
    trimmedRPM (some ((H.take m).reverse)) now r
      = ((now :: H).take (min (countLive now (H.take m) + 1) r.toNat)).reverse := by
  have hsm : List.Sorted (· ≥ ·) (H.take m) := List.Pairwise.take hs
  have hfm : countLive now (H.take m) ≤ min m H.length := by
    have := countLive_le_length now (H.take m)
    rwa [List.length_take] at this
  set f := countLive now (H.take m) with hf
  have hfleM : f ≤ m := le_trans hfm (min_le_left _ _)
  have hfleL : f ≤ H.length := le_trans hfm (min_le_right _ _)
  have hfilter : ((H.take m).reverse).filter (fun ts => decide (now - ts < 60))
      = (H.take f).reverse := by
    rw [List.filter_reverse, filter_live_sorted_eq_take now (H.take m) hsm, List.take_take]
    rw [min_eq_left hfleM]
  have hflen : (H.take f).length = f := by
    rw [List.length_take]
    exact min_eq_left hfleL
  have hnts : ((H.take m).reverse).filter (fun ts => decide (now - ts < 60)) ++ [now]
      = (now :: H.take f).reverse := by
    rw [hfilter, List.reverse_cons]
  have hntslen : ((now :: H.take f).reverse).length = f + 1 := by
    simp [hflen]
  rw [trimmedRPM]
  simp only [Option.getD_some]
  rw [hnts, hntslen]
  by_cases htrim : ((f + 1 : Nat) : Int) > r
  · rw [if_pos htrim]
    have hrf : r.toNat ≤ f := by omega
    rw [drop_reverse_eq _ _ (by simp only [List.length_cons, hflen]; omega)]
    have hlen2 : (now :: H.take f).length - (f + 1 - r.toNat) = r.toNat := by
      simp only [List.length_cons, hflen]
      omega
    rw [hlen2]
    have hmin : min (f + 1) r.toNat = r.toNat := by omega
    obtain ⟨k, hk⟩ : ∃ k, r.toNat = k + 1 := ⟨r.toNat - 1, by omega⟩
    rw [hmin, hk, take_cons_take_of_le k f (by omega)]
  · rw [if_neg htrim]
    have hmin : min (f + 1) r.toNat = f + 1 := by omega
    rw [hmin, List.take_succ_cons]


theorem take_cons_take (n : Nat) (x : Int) (l : List Int) :
    (x :: l.take n).take n = (x :: l).take n := by
  cases n with
  | zero => rfl
  | succ k =>
      rw [List.take_succ_cons, List.take_succ_cons, List.take_take,
        min_eq_left (Nat.le_succ k)]

theorem rpmRel_step (r t0 now : Int) (hr : 0 < r) (hnow : t0 ≤ now)
    (ml : Option (List Int)) (rl : Option RedisList) (hrel : rpmRel r t0 ml rl) :
    rpmRel r now (some (trimmedRPM ml now r)) (some (pushedRPM rl now r)) := by
  have hr1 : 1 ≤ r.toNat := by omega
  rcases hrel with ⟨hml, hrl⟩ | ⟨w, rest, m, hsort, hbound, hrlEq, hm, hmlEq, hgap⟩
  · right
    refine ⟨now, [], 1, ?_, ?_, ?_, ?_, ?_, ?_⟩
    · simp [List.sorted_cons]
    · intro x hx
      simp only [List.mem_singleton] at hx
      omega
    · rw [hrl]
      simp [pushedRPM, liveListValue, chain]
    · exact le_min hr1 (by simp)
    · rw [hml]
      simp [trimmedRPM, show ¬ ((1 : Int) > r) by omega]
    · intro x hx
      rw [List.take_of_length_le (by simp; omega)] at hx
      simp at hx
  · right
    have hbw : ∀ x ∈ w :: rest, x ≤ w := by
      intro x hx
      rcases List.mem_cons.mp hx with rfl | hx
      · omega
      · have := (List.sorted_cons.mp hsort).1 x hx
        omega
    have hwnow : w ≤ now := le_trans (hbound w (List.mem_cons_self w rest)) hnow
    have hsort2 : List.Sorted (· ≥ ·) (now :: w :: rest) := by
      rw [List.sorted_cons]
      exact ⟨fun b hb => le_trans (hbw b hb) hwnow, hsort⟩
    have hmlen : m ≤ (w :: rest).length := le_trans hm (min_le_right _ _)
    have hfm : countLive now ((w :: rest).take m) ≤ min m (w :: rest).length := by
      have := countLive_le_length now ((w :: rest).take m)
      rwa [List.length_take] at this
    set f := countLive now ((w :: rest).take m) with hf
    have hfleM : f ≤ m := le_trans hfm (min_le_left _ _)
    have hfleL : f ≤ (w :: rest).length := le_trans hfm (min_le_right _ _)
    refine ⟨now, w :: rest, min (f + 1) r.toNat, hsort2, ?_, ?_, ?_, ?_, ?_⟩
    · intro x hx
      rcases List.mem_cons.mp hx with rfl | hx
      · omega
      · exact le_trans (hbw x hx) hwnow
    · -- Redis side: LPush and LTrim of the live list = chain of the new history
      rw [hrlEq]
      by_cases hdead : now ≥ w + 60
      · have hchain : chain (now :: w :: rest) = [now] := by
          rw [chain, if_neg (by omega)]
        simp [pushedRPM, liveListValue, hdead, hchain]
      · have hchain : chain (now :: w :: rest) = now :: chain (w :: rest) := by
          rw [chain, if_pos (by omega)]
        simp only [pushedRPM, liveListValue, if_neg hdead, hchain]
        congr 2
        exact take_cons_take r.toNat now (chain (w :: rest))
    · refine le_min (min_le_right _ _) (le_trans (min_le_left _ _) ?_)
      have h9 : (now :: w :: rest).length = (w :: rest).length + 1 := by simp
      omega
    · rw [hmlEq]
      exact congrArg some (trimmedRPM_eq now r hr (w :: rest) m hsort hmlen)
    · intro x hx
      by_cases htrim : r.toNat ≤ f
      · have hmin : min (f + 1) r.toNat = r.toNat := by omega
        rw [hmin, List.drop_eq_nil_of_le
          (by rw [List.length_take]; exact min_le_left _ _)] at hx
        simp at hx
      · have hmin : min (f + 1) r.toNat = f + 1 := by omega
        rw [hmin] at hx
        obtain ⟨k, hk⟩ : ∃ k, r.toNat = k + 1 := ⟨r.toNat - 1, by omega⟩
        rw [hk, List.take_succ_cons, List.drop_succ_cons] at hx
        have hfk : f ≤ k := by omega
        rw [drop_split_at ((w :: rest).take k) f m hfleM
          (by rw [List.length_take]; exact le_min hfk hfleL)] at hx
        rcases List.mem_append.mp hx with hx1 | hx1
        · rw [List.take_take] at hx1
          have heq : (w :: rest).take (m ⊓ k) = ((w :: rest).take m).take k := by
            rw [List.take_take, min_comm]
          rw [heq] at hx1
          have hx2 : x ∈ ((w :: rest).take m).drop f :=
            ((List.take_sublist k ((w :: rest).take m)).drop f).subset hx1
          have := dead_of_mem_drop_countLive (List.Pairwise.take hsort) hx2
          omega
        · have heq : (w :: rest).take k = ((w :: rest).take (k + 1)).take k := by
            rw [List.take_take, min_eq_left (Nat.le_succ k)]
          rw [heq] at hx1
          have hx2 : x ∈ ((w :: rest).take (k + 1)).drop m :=
            ((List.take_sublist k ((w :: rest).take (k + 1))).drop m).subset hx1
          rw [← hk] at hx2
          have := hgap x hx2
          omega


theorem counterRel_setStore {mstore : Key → Option MemoryCountItem}
    {rstore : Key → Option RedisCounter} (h : counterRel mstore rstore) (key : Key)
    (v : MemoryCountItem) (w : RedisCounter)
    (hw : w = ⟨v.count, some v.expiration⟩) (hv : 1 ≤ v.count) :
    counterRel (setStore mstore key v) (setStore rstore key w) := by
  intro k2
  by_cases hk : k2 = key
  · subst hk
    constructor
    · rw [setStore_self, setStore_self, hw]
      rfl
    · intro it hit
      rw [setStore_self] at hit
      cases hit
      exact hv
  · constructor
    · rw [setStore_other _ _ _ _ hk, setStore_other _ _ _ _ hk]
      exact (h k2).1
    · intro it hit
      rw [setStore_other _ _ _ _ hk] at hit
      exact (h k2).2 it hit

theorem counterRel_update {mstore : Key → Option MemoryCountItem}
    {rstore : Key → Option RedisCounter} (h : counterRel mstore rstore)
    (now delta win : Int) (hdelta : 1 ≤ delta) (key : Key) :
    counterRel
      (match mstore key with
       | some item =>
           if now ≥ item.expiration then setStore mstore key ⟨delta, now + win⟩
           else setStore mstore key ⟨item.count + delta, item.expiration⟩
       | none => setStore mstore key ⟨delta, now + win⟩)
      (setStore rstore key
        ⟨(match liveCounterValue (rstore key) now with
           | some c => c.count
           | none => (0 : Int)) + delta,
         if (match liveCounterValue (rstore key) now with
             | some c => c.count
             | none => (0 : Int)) + delta = delta
         then some (now + win)
         else match liveCounterValue (rstore key) now with
              | some c => c.expireAt
              | none => none⟩) := by
  cases hmk : mstore key with
  | none =>
    have hrk : rstore key = none := by
      have := (h key).1
      rw [hmk] at this
      simpa using this
    have hlive : liveCounterValue (rstore key) now = none := by
      simp [liveCounterValue, hrk]
    dsimp only
    rw [hlive]
    exact counterRel_setStore h key ⟨delta, now + win⟩ _
      (by simp only [if_pos (show (0 : Int) + delta = delta by omega)]; congr 1; omega)
      hdelta
  | some item =>
    have hrk : rstore key = some ⟨item.count, some item.expiration⟩ := by
      have := (h key).1
      rw [hmk] at this
      simpa using this
    have hc1 : 1 ≤ item.count := (h key).2 item hmk
    dsimp only
    by_cases hexp : now ≥ item.expiration
    · have hlive : liveCounterValue (rstore key) now = none := by
        simp [liveCounterValue, hrk, hexp]
      rw [if_pos hexp, hlive]
      exact counterRel_setStore h key ⟨delta, now + win⟩ _
        (by simp only [if_pos (show (0 : Int) + delta = delta by omega)]; congr 1; omega)
        hdelta
    · have hlive : liveCounterValue (rstore key) now
          = some ⟨item.count, some item.expiration⟩ := by
        simp [liveCounterValue, hrk, hexp]
      rw [if_neg hexp, hlive]
      exact counterRel_setStore h key ⟨item.count + delta, item.expiration⟩ _
        (by simp only [if_neg (show ¬ (item.count + delta = delta) by omega)])
        (by dsimp only; omega)


theorem recordMemory_eq (ms : MemoryState) (now channelId : Int) (modelName : String)
    (rpm tpm rpd tokens : Int) :
    recordChannelRateLimitMemory ms now channelId modelName rpm tpm rpd tokens =
      ⟨setStore ms.rpmStore (channelId, modelName)
          (trimmedRPM (ms.rpmStore (channelId, modelName)) now (if rpm ≤ 0 then 1000 else rpm)),
       (if tokens > 0 then
          match ms.tpmStore (channelId, modelName) with
          | some item =>
              if now ≥ item.expiration then
                setStore ms.tpmStore (channelId, modelName) ⟨tokens, now + 60⟩
              else
                setStore ms.tpmStore (channelId, modelName)
                  ⟨item.count + tokens, item.expiration⟩
          | none => setStore ms.tpmStore (channelId, modelName) ⟨tokens, now + 60⟩
        else ms.tpmStore),
       (match ms.rpdStore (channelId, modelName) with
        | some item =>
            if now ≥ item.expiration then
              setStore ms.rpdStore (channelId, modelName) ⟨1, now + 24 * 3600⟩
            else
              setStore ms.rpdStore (channelId, modelName)
                ⟨item.count + 1, item.expiration⟩
        | none => setStore ms.rpdStore (channelId, modelName) ⟨1, now + 24 * 3600⟩)⟩ := rfl

theorem recordRedis_eq (rs : RedisState) (now channelId : Int) (modelName : String)
    (rpm tpm rpd tokens : Int) :
    recordChannelRateLimitRedis rs now channelId modelName rpm tpm rpd tokens =
      ⟨setStore rs.rpmKeys (channelId, modelName)
          (pushedRPM (rs.rpmKeys (channelId, modelName)) now (if rpm ≤ 0 then 1000 else rpm)),
       (if tokens > 0 then
          setStore rs.tpmKeys (channelId, modelName)
            ⟨(match liveCounterValue (rs.tpmKeys (channelId, modelName)) now with
               | some c => c.count
               | none => (0 : Int)) + tokens,
             if (match liveCounterValue (rs.tpmKeys (channelId, modelName)) now with
                 | some c => c.count
                 | none => (0 : Int)) + tokens = tokens
             then some (now + 60)
             else match liveCounterValue (rs.tpmKeys (channelId, modelName)) now with
                  | some c => c.expireAt
                  | none => none⟩
        else rs.tpmKeys),
       setStore rs.rpdKeys (channelId, modelName)
         ⟨(match liveCounterValue (rs.rpdKeys (channelId, modelName)) now with
            | some c => c.count
            | none => (0 : Int)) + 1,
          if ((match liveCounterValue (rs.rpdKeys (channelId, modelName)) now with
               | some c => c.count
               | none => (0 : Int)) + 1 : Int) = 1
          then some (now + 24 * 3600)
          else match liveCounterValue (rs.rpdKeys (channelId, modelName)) now with
               | some c => c.expireAt
               | none => none⟩⟩ := rfl

theorem rpmRel_mono (r t0 t1 : Int) (h01 : t0 ≤ t1) (ml : Option (List Int))
    (rl : Option RedisList) (h : rpmRel r t0 ml rl) : rpmRel r t1 ml rl := by
  rcases h with h | ⟨w, rest, m, hs, hb, hrl, hm, hml, hgap⟩
  · exact Or.inl h
  · exact Or.inr ⟨w, rest, m, hs, fun x hx => le_trans (hb x hx) h01, hrl, hm, hml,
      fun x hx => by have := hgap x hx; omega⟩

theorem backendInv_mono (r t0 t1 : Int) (h01 : t0 ≤ t1) (ms : MemoryState)
    (rs : RedisState) (h : backendInv r t0 ms rs) : backendInv r t1 ms rs :=
  ⟨h.1, h.2.1, fun k => rpmRel_mono r t0 t1 h01 _ _ (h.2.2 k)⟩

theorem backendInv_empty (r t0 : Int) :
    backendInv r t0 emptyMemoryState emptyRedisState := by
  refine ⟨fun k => ⟨rfl, ?_⟩, fun k => ⟨rfl, ?_⟩, fun k => Or.inl ⟨rfl, rfl⟩⟩
  · intro it h
    cases h
  · intro it h
    cases h

theorem backendInv_record (r t0 now : Int) (hr : 0 < r) (hnow : t0 ≤ now)
    (channelId : Int) (modelName : String) (tpm rpd tokens : Int)
    (ms : MemoryState) (rs : RedisState) (hinv : backendInv r t0 ms rs) :
    backendInv r now
      (recordChannelRateLimitMemory ms now channelId modelName r tpm rpd tokens)
      (recordChannelRateLimitRedis rs now channelId modelName r tpm rpd tokens) := by
  obtain ⟨h1, h2, h3⟩ := hinv
  rw [recordMemory_eq, recordRedis_eq]
  have hlim : (if r ≤ 0 then 1000 else r) = r := by rw [if_neg (by omega)]
  rw [hlim]
  refine ⟨?_, ?_, ?_⟩
  · dsimp only
    by_cases htok : tokens > 0
    · rw [if_pos htok, if_pos htok]
      exact counterRel_update h1 now tokens 60 (by omega) (channelId, modelName)
    · rw [if_neg htok, if_neg htok]
      exact h1
  · dsimp only
    exact counterRel_update h2 now 1 (24 * 3600) (by omega) (channelId, modelName)
  · intro k
    dsimp only
    by_cases hk : k = (channelId, modelName)
    · subst hk
      rw [setStore_self, setStore_self]
      exact rpmRel_step r t0 now hr hnow _ _ (h3 (channelId, modelName))
    · rw [setStore_other _ _ _ _ hk, setStore_other _ _ _ _ hk]
      exact rpmRel_mono r t0 now hnow _ _ (h3 k)


theorem runAgreeFrom (r : Int) (hr : 0 < r) :
    ∀ (S : List Step) (t0 : Int) (ms : MemoryState) (rs : RedisState),
      List.Chain' (· ≤ ·) (t0 :: S.map Step.time) →
      (∀ s ∈ S, callRPMArg s.call = none ∨ callRPMArg s.call = some r) →
      backendInv r t0 ms rs →
      List.Forall₂ resultAgree (runRedisFrom rs S) (runMemoryFrom ms S) := by
  intro S
  induction S with
  | nil =>
    intro t0 ms rs _ _ _
    simp only [runRedisFrom, runMemoryFrom]
    exact List.Forall₂.nil
  | cons s rest ih =>
    intro t0 ms rs hchain hargs hinv
    rw [List.map_cons] at hchain
    have ht0 : t0 ≤ s.time := (List.chain'_cons.mp hchain).1
    have hchain2 : List.Chain' (· ≤ ·) (s.time :: rest.map Step.time) :=
      (List.chain'_cons.mp hchain).2
    have hinv2 := backendInv_mono r t0 s.time ht0 ms rs hinv
    have hargs_s := hargs s (List.mem_cons_self s rest)
    have hargs_rest : ∀ s2 ∈ rest, callRPMArg s2.call = none ∨ callRPMArg s2.call = some r :=
      fun s2 hs2 => hargs s2 (List.mem_cons_of_mem s hs2)
    cases hc : s.call with
    | check rpm tpm rpd =>
      have hrpm : rpm = r := by
        rw [hc] at hargs_s
        rcases hargs_s with h | h
        · cases h
        · simpa [callRPMArg] using h
      subst hrpm
      simp only [runRedisFrom, runMemoryFrom, redisApply, memoryApply, hc]
      refine List.Forall₂.cons ?_ (ih s.time ms rs hchain2 hargs_rest hinv2)
      exact (check_verdict_agree rpm s.time s.time hr le_rfl ms rs s.channelId
        s.modelName tpm rpd hinv2).symm
    | record rpm tpm rpd tokens =>
      have hrpm : rpm = r := by
        rw [hc] at hargs_s
        rcases hargs_s with h | h
        · cases h
        · simpa [callRPMArg] using h
      subst hrpm
      simp only [runRedisFrom, runMemoryFrom, redisApply, memoryApply, hc]
      refine List.Forall₂.cons trivial
        (ih s.time _ _ hchain2 hargs_rest
          (backendInv_record rpm s.time s.time hr le_rfl s.channelId s.modelName
            tpm rpd tokens ms rs hinv2))
    | getUsage =>
      simp only [runRedisFrom, runMemoryFrom, redisApply, memoryApply, hc]
      refine List.Forall₂.cons ?_ (ih s.time ms rs hchain2 hargs_rest hinv2)
      have hu := usage_tpm_rpd_agree s.time ms rs s.channelId s.modelName hinv2.1 hinv2.2.1
      exact ⟨(congrArg Prod.fst hu).symm, (congrArg Prod.snd hu).symm⟩

/-- C1 counterexample: on divergingScript (the same calls, the same
wall-clock times, and the same rpm limit 2 everywhere) the final GetUsage
returns rpm 2 from the Redis backend (raw list length of the still-live
key) but rpm 1 from the in-process backend (only the second record is
inside the trailing 60s window), so the two backends do not return
identical (rpm, tpm, rpd) usage triples. -/
theorem backend_equivalence_counterexample :
    List.Chain' (· ≤ ·) (divergingScript.map Step.time) ∧
    (∀ s ∈ divergingScript, callRPMArg s.call = none ∨ callRPMArg s.call = some 2) ∧
    (runRedis divergingScript).getLast? = some (StepResult.usage 2 0 2) ∧
    (runMemory divergingScript).getLast? = some (StepResult.usage 1 0 2) := by
  refine ⟨?_, by decide, by decide, by decide⟩
  simp [divergingScript]

/-- C1 (amended): for every script of Check, Record and GetUsage calls with
nondecreasing wall-clock timestamps in which every call carries the same
positive rpm limit, the two backends agree step by step: a Check returns
Saturated in the Redis backend iff it does in the in-process backend, and
GetUsage returns the same tpm and rpd in both; the rpm value reported by
GetUsage is not part of the agreement (the Redis backend reports the raw
stored-list length, the in-process backend only the timestamps inside the
trailing 60 seconds). -/
theorem backend_equivalence_constant_rpm (S : List Step) (r : Int) (hr : 0 < r)
    (hmono : List.Chain' (· ≤ ·) (S.map Step.time))
    (hargs : ∀ s ∈ S, callRPMArg s.call = none ∨ callRPMArg s.call = some r) :
    List.Forall₂ resultAgree (runRedis S) (runMemory S) := by
  cases S with
  | nil =>
    simp only [runRedis, runMemory, runRedisFrom, runMemoryFrom]
    exact List.Forall₂.nil
  | cons s rest =>
    refine runAgreeFrom r hr (s :: rest) s.time emptyMemoryState emptyRedisState ?_ hargs
      (backendInv_empty r s.time)
    rw [List.map_cons]
    exact List.chain'_cons.mpr ⟨le_refl s.time, by rw [List.map_cons] at hmono; exact hmono⟩

/-- Witness for C1's amended equivalence at a concrete three-step script. -/
theorem backend_equivalence_constant_rpm_witness :
    ((0 : Int) < 2) ∧
    List.Chain' (· ≤ ·) (agreeingScript.map Step.time) ∧
    (∀ s ∈ agreeingScript, callRPMArg s.call = none ∨ callRPMArg s.call = some 2) ∧
    List.Forall₂ resultAgree (runRedis agreeingScript) (runMemory agreeingScript) := by
  refine ⟨by decide, ?_, by decide, ?_⟩
  · simp [agreeingScript]
  · exact backend_equivalence_constant_rpm agreeingScript 2 (by decide)
      (by simp [agreeingScript]) (by decide)

end ChannelRateLimit
